import Mathlib

/-!
Verification of the persistence and update engine of the plotting tool
(`plotting_tool/file.py` and `plotting_tool/background.py`).

The CSV ledgers are modelled as a header plus a list of rows, where a row is
an association list from column name to a cell value.  A cell value is either
a string (timestamps, and the `restval` empty string that `csv.DictWriter`
substitutes for a missing key) or a number; `Val.num q` models the decimal
string rendering of the rational `q`, so `float(...)` succeeds exactly on
`Val.num` cells and fails on string cells (`float("")`, `float("2022-...")`
raise `ValueError` in Python).  Python exceptions are modelled with `PyError`;
each `ValueError` carries the message raised by the source.
-/

namespace PlotTool

/-- Python exception values raised by the modelled code. -/
inductive PyError where
  | valueError (msg : String)
  | keyError (key : String)
  | typeError
deriving DecidableEq, Repr

/-- A CSV cell / Python dict value: a raw string or a numeric value. -/
inductive Val where
  | str (s : String)
  | num (q : ℚ)
deriving DecidableEq, Repr

/-- A row as produced by `csv.DictReader` / consumed by `csv.DictWriter`:
an association list from column name to cell value. -/
abbrev Row := List (String × Val)

/-- First-match association-list lookup (Python `d[k]` / `d.get(k)`). -/
def lookupA {σ : Type} : List (String × σ) → String → Option σ
  | [], _ => none
  | kv :: l, k => if kv.1 = k then some kv.2 else lookupA l k

/-- Python `d[k] = v`: overwrite in place if the key exists, else append. -/
def setA {σ : Type} (l : List (String × σ)) (k : String) (v : σ) : List (String × σ) :=
  if (l.map Prod.fst).contains k then
    l.map (fun kv => if kv.1 = k then (kv.1, v) else kv)
  else
    l ++ [(k, v)]

/-- Drop the first entry with the given key (Python `d.pop(k)` on a dict
whose keys are unique). -/
def popA {σ : Type} : List (String × σ) → String → List (String × σ)
  | [], _ => []
  | kv :: l, k => if kv.1 = k then l else kv :: popA l k

/-- Keys of a row, in order. -/
def rowKeys (r : Row) : List String := r.map Prod.fst

/-- `mapM` for `Except PyError`, written with explicit matches so the
theorems below can proceed by structural induction. -/
def mapME {α β : Type} (f : α → Except PyError β) : List α → Except PyError (List β)
  | [] => .ok []
  | a :: l =>
    match f a with
    | .error e => .error e
    | .ok b =>
      match mapME f l with
      | .error e => .error e
      | .ok bs => .ok (b :: bs)

/-- `foldlM` for `Except PyError`. -/
def foldlME {α β : Type} (f : β → α → Except PyError β) : β → List α → Except PyError β
  | b, [] => .ok b
  | b, a :: l =>
    match f b a with
    | .error e => .error e
    | .ok b' => foldlME f b' l

/-- `float(v)`: succeeds on numeric cells, raises `ValueError` on strings
(timestamps and the empty `restval` string never parse as floats). -/
def pyFloat : Val → Except PyError ℚ
  | .num q => .ok q
  | .str _ => .error (.valueError "could not convert string to float")

/-- One CSV data file: the header line and the data rows. -/
structure CsvFile where
  header : List String
  rows : List Row
deriving DecidableEq, Repr

/-- `csv.DictWriter(..., fieldnames=h).writerow(d)` with the default
`extrasaction="raise"` and `restval` (written as the empty string): raises
`ValueError` if `d` has a key outside `h`, otherwise produces the row
projected onto `h` in header order. -/
def writerowDict (fieldnames : List String) (d : Row) : Except PyError Row :=
  if d.any (fun kv => !fieldnames.contains kv.1) then
    .error (.valueError "dict contains fields not in fieldnames")
  else
    .ok (fieldnames.map (fun k => (k, (lookupA d k).getD (Val.str ""))))

/-- The four data files of the application: `ids.json`, `bundles.json`,
`prices.csv` and `bundle_prices.csv`. -/
structure AppState where
  ids : List String
  bundles : List (String × List (String × ℚ))
  prices : CsvFile
  bundle_prices : CsvFile
deriving DecidableEq, Repr

/-- A bundle: asset id to weight, in insertion order. -/
abbrev Bundle := List (String × ℚ)

/-- Result of a mutating operation: the state of the four files when the
call returns or when the exception is raised, plus the raised exception if
any.  The source raises before the first file write on every validation
failure, so `error = some e` with `state = st` models "fails and leaves the
files unchanged". -/
structure OpResult where
  state : AppState
  error : Option PyError
deriving DecidableEq, Repr

/-- `load_bundle_ids`: `list(load_bundles().keys())`. -/
def load_bundle_ids (st : AppState) : List String := st.bundles.map Prod.fst

/-- `valid_cryptocurrency_ids`: every requested id occurs in `ids.json`. -/
def valid_cryptocurrency_ids (cryptocurrency_ids : List String) (st : AppState) : Bool :=
  cryptocurrency_ids.all (fun cur_id => st.ids.contains cur_id)

/-- `exists_in_bundles`: `cryptocurrency_id in cur_list` iterates the keys of
each bundle dict. -/
def exists_in_bundles (cryptocurrency_id : String) (st : AppState) : Bool :=
  st.bundles.any (fun b => (b.2.map Prod.fst).contains cryptocurrency_id)

/-- `list.remove(x)`: drop the first occurrence of `x`. -/
def removeFirst : List String → String → List String
  | [], _ => []
  | a :: l, x => if a = x then l else a :: removeFirst l x

/-- `list.remove(x)` raising `ValueError` when `x` is absent. -/
def removeFirstE (l : List String) (x : String) : Except PyError (List String) :=
  if l.contains x then .ok (removeFirst l x) else
    .error (.valueError "list remove x not in list")

/-- `dict.pop(k)` on a row, raising `KeyError` when the key is absent
(`row.pop(column_name)` in `_remove_column_from_csv`). -/
def popKeyE (r : Row) (k : String) : Except PyError Row :=
  if (rowKeys r).contains k then .ok (popA r k) else .error (.keyError k)

/-- `_add_column_to_csv`: rewrite the file with the new column appended to
the header and set to `0` in every existing row, atomically (the original
file is untouched when any row write raises). -/
def _add_column_to_csv (f : CsvFile) (column_name : String) : Except PyError CsvFile :=
  let header := f.header ++ [column_name]
  match mapME (fun row => writerowDict header (setA row column_name (Val.num 0))) f.rows with
  | .error e => .error e
  | .ok rows => .ok ⟨header, rows⟩

/-- `_remove_column_from_csv`: rewrite the file with the column dropped from
the header and every row, atomically. -/
def _remove_column_from_csv (f : CsvFile) (column_name : String) : Except PyError CsvFile :=
  match removeFirstE f.header column_name with
  | .error e => .error e
  | .ok header =>
    match mapME (fun row =>
        match popKeyE row column_name with
        | .error e => .error e
        | .ok row' => writerowDict header row') f.rows with
    | .error e => .error e
    | .ok rows => .ok ⟨header, rows⟩

/-- `add_new_cryptocurrency`: reject a duplicate id, else append the id to
`ids.json` (`_add_new_id` runs first) and add the column to `prices.csv`. -/
def add_new_cryptocurrency (cryptocurrency_id : String) (st : AppState) : OpResult :=
  if st.ids.contains cryptocurrency_id then
    ⟨st, some (.valueError "GIVEN CRYPTOCURRENCY ID ALREADY ADDED")⟩
  else
    let st1 := { st with ids := st.ids ++ [cryptocurrency_id] }
    match _add_column_to_csv st1.prices cryptocurrency_id with
    | .error e => ⟨st1, some e⟩
    | .ok f => ⟨{ st1 with prices := f }, none⟩

/-- `remove_cryptocurrency`: reject an unknown id or an id still used by a
bundle, else remove the id from `ids.json` (`_remove_id` runs first) and the
column from `prices.csv`. -/
def remove_cryptocurrency (cryptocurrency_id : String) (st : AppState) : OpResult :=
  if !st.ids.contains cryptocurrency_id then
    ⟨st, some (.valueError "GIVEN CRYPTOCURRENCY ID NOT FOUND")⟩
  else if exists_in_bundles cryptocurrency_id st then
    ⟨st, some (.valueError "REMOVE CRYPTOCURRENCY FROM BUNDLES BEFORE DELETING IT")⟩
  else
    let st1 := { st with ids := removeFirst st.ids cryptocurrency_id }
    match _remove_column_from_csv st1.prices cryptocurrency_id with
    | .error e => ⟨st1, some e⟩
    | .ok f => ⟨{ st1 with prices := f }, none⟩

/-- `create_bundle`: reject a taken name, else add an empty bundle.  Note
that `bundle_prices.csv` is not touched: an empty bundle has no column. -/
def create_bundle (bundle_id : String) (st : AppState) : OpResult :=
  if (st.bundles.map Prod.fst).contains bundle_id then
    ⟨st, some (.valueError "BUNDLE NAME ALREADY TAKEN")⟩
  else
    ⟨{ st with bundles := st.bundles ++ [(bundle_id, [])] }, none⟩

/-- `Σ float(prices[cid]) * amount` over the members of a bundle, where
`prices` is the price row (`None` when `zip_longest` ran past the Price
Ledger, raising `TypeError` on subscription).  The sum of an empty member
list is `0` without ever touching the row, as in Python. -/
def bundle_row_value (cur_price_row : Option Row) (cryptocurrencies : Bundle) :
    Except PyError ℚ :=
  match mapME (fun (m : String × ℚ) =>
      match cur_price_row with
      | none => .error .typeError
      | some cur =>
        match lookupA cur m.1 with
        | none => .error (.keyError m.1)
        | some v =>
          match pyFloat v with
          | .error e => .error e
          | .ok q => .ok (q * m.2)) cryptocurrencies with
  | .error e => .error e
  | .ok l => .ok l.sum

/-- `itertools.zip_longest` on two row lists (structural on the first list;
a leftover tail on either side is paired with `None`). -/
def zipLongest : List Row → List Row → List (Option Row × Option Row)
  | [], bs => bs.map (fun b => (none, some b))
  | a :: as, [] => (some a, none) :: zipLongest as []
  | a :: as, b :: bs => (some a, some b) :: zipLongest as bs

/-- The fresh `{"timestamp": cur_price_row["timestamp"]}` row synthesized by
`_update_bundle_prices` when the Bundle Ledger row is missing (subscripting
a `None` price row raises `TypeError`). -/
def bundleSynthRow : Option Row → Except PyError Row
  | none => .error .typeError
  | some cur =>
    match lookupA cur "timestamp" with
    | none => .error (.keyError "timestamp")
    | some ts => .ok [("timestamp", ts)]

/-- The base row used by `_update_bundle_prices` for one `zip_longest` pair:
the existing Bundle Ledger row when it is truthy, else a synthesized one. -/
def bundleBaseRow (pr : Option Row × Option Row) : Except PyError Row :=
  match pr.2 with
  | some r => if r.isEmpty then bundleSynthRow pr.1 else .ok r
  | none => bundleSynthRow pr.1

/-- `_update_bundle_prices`: rewrite `bundle_prices.csv` with header
`["timestamp"] + load_bundle_ids()`, pairing Price Ledger and Bundle Ledger
rows positionally and recomputing the given bundle's column, atomically. -/
def _update_bundle_prices (bundle_id : String) (cryptocurrencies : Bundle)
    (st : AppState) : Except PyError CsvFile :=
  let header := "timestamp" :: load_bundle_ids st
  match mapME (fun pr =>
      match bundleBaseRow pr with
      | .error e => .error e
      | .ok row0 =>
        match bundle_row_value pr.1 cryptocurrencies with
        | .error e => .error e
        | .ok s => writerowDict header (setA row0 bundle_id (Val.num s)))
      (zipLongest st.prices.rows st.bundle_prices.rows) with
  | .error e => .error e
  | .ok rows => .ok ⟨header, rows⟩

/-- `add_cryptocur_to_bundle`: validate the asset id and the bundle id, run
the (dead, see `c2_duplicate_check_dead`) membership test against the
bundle's weight values, store the weight, write `bundles.json`, then
recompute the bundle's ledger column.  The membership test models Python's
`cryptocur_id in bundles[bundle_id].values()`: comparing the id string with
each numeric weight via `==`, which is `False` for a string and a number. -/
def add_cryptocur_to_bundle (bundle_id cryptocur_id : String) (amount : ℚ)
    (st : AppState) : OpResult :=
  if !valid_cryptocurrency_ids [cryptocur_id] st then
    ⟨st, some (.valueError "GIVEN CRYPTOCURRENCY ID NOT FOUND")⟩
  else
    match lookupA st.bundles bundle_id with
    | none => ⟨st, some (.valueError "BUNDLE NOT FOUND")⟩
    | some bundle =>
      if (bundle.map (fun m => Val.num m.2)).contains (Val.str cryptocur_id) then
        ⟨st, some (.valueError "CRYPTOCURRENCY ALREADY IN BUNDLE")⟩
      else
        let bundle' := setA bundle cryptocur_id amount
        let st1 := { st with bundles := setA st.bundles bundle_id bundle' }
        match _update_bundle_prices bundle_id bundle' st1 with
        | .error e => ⟨st1, some e⟩
        | .ok f => ⟨{ st1 with bundle_prices := f }, none⟩

/-- `remove_cryptocur_from_bundle`: validate the bundle id and membership
(this one checks `.keys()`), pop the member, write `bundles.json`, then
recompute the bundle's ledger column. -/
def remove_cryptocur_from_bundle (bundle_id cryptocur_id : String)
    (st : AppState) : OpResult :=
  match lookupA st.bundles bundle_id with
  | none => ⟨st, some (.valueError "BUNDLE NOT FOUND")⟩
  | some bundle =>
    if !(bundle.map Prod.fst).contains cryptocur_id then
      ⟨st, some (.valueError "CRYPTOCURRENCY NOT ADDED TO BUNDLE")⟩
    else
      let bundle' := popA bundle cryptocur_id
      let st1 := { st with bundles := setA st.bundles bundle_id bundle' }
      match _update_bundle_prices bundle_id bundle' st1 with
      | .error e => ⟨st1, some e⟩
      | .ok f => ⟨{ st1 with bundle_prices := f }, none⟩

/-- `delete_bundle`: pop the bundle from `bundles.json`; drop its ledger
column only if it had at least one member (an empty bundle has none). -/
def delete_bundle (bundle_id : String) (st : AppState) : OpResult :=
  match lookupA st.bundles bundle_id with
  | none => ⟨st, some (.valueError "GIVEN BUNDLE ID NOT FOUND")⟩
  | some bundle =>
    let st1 := { st with bundles := popA st.bundles bundle_id }
    if bundle.isEmpty then ⟨st1, none⟩
    else
      match _remove_column_from_csv st1.bundle_prices bundle_id with
      | .error e => ⟨st1, some e⟩
      | .ok f => ⟨{ st1 with bundle_prices := f }, none⟩

/-- The header used by `write_cryptocur_prices_entry`: the argument if it is
truthy, else `["timestamp"] + load_cryptocurrency_ids()`. -/
def writeEntryHeader (st : AppState) : Option (List String) → List String
  | none => "timestamp" :: st.ids
  | some h => if h.isEmpty then "timestamp" :: st.ids else h

/-- `write_cryptocur_prices_entry`: raise `ValueError` when the sample lacks
a value for some non-timestamp header column, else append the row (a true
append; `DictWriter.writerow` itself raises, before writing, if the sample
has a key outside the header). -/
def write_cryptocur_prices_entry (data : Row) (header? : Option (List String))
    (st : AppState) : OpResult :=
  let header := writeEntryHeader st header?
  if (header.drop 1).any (fun c => !(rowKeys data).contains c) then
    ⟨st, some (.valueError "CRYPTOCURRENCY VALUE MISSING")⟩
  else
    match writerowDict header data with
    | .error e => ⟨st, some e⟩
    | .ok row =>
      ⟨{ st with prices := { st.prices with rows := st.prices.rows ++ [row] } }, none⟩

/-- `write_bundle_prices_entry`: build the bundle sample (`timestamp` first,
then one derived value per bundle in registry order) and append it to
`bundle_prices.csv`. -/
def write_bundle_prices_entry (cryptocur_prices : Row) (st : AppState) : OpResult :=
  match lookupA cryptocur_prices "timestamp" with
  | none => ⟨st, some (.keyError "timestamp")⟩
  | some ts =>
    let header := "timestamp" :: load_bundle_ids st
    match mapME (fun (b : String × Bundle) =>
        match bundle_row_value (some cryptocur_prices) b.2 with
        | .error e => .error e
        | .ok s => .ok (b.1, Val.num s)) st.bundles with
    | .error e => ⟨st, some e⟩
    | .ok vals =>
      let data := vals.foldl (fun r kv => setA r kv.1 kv.2) [("timestamp", ts)]
      match writerowDict header data with
      | .error e => ⟨st, some e⟩
      | .ok row =>
        ⟨{ st with bundle_prices :=
            { st.bundle_prices with rows := st.bundle_prices.rows ++ [row] } }, none⟩

/-- `_convert_price_file_values`: rewrite one price file, multiplying every
non-timestamp cell by the factor (via `float`), atomically. -/
def _convert_price_file_values (f : CsvFile) (header : List String) (factor : ℚ) :
    Except PyError CsvFile :=
  match mapME (fun row =>
      match mapME (fun (kv : String × Val) =>
          if kv.1 = "timestamp" then .ok kv
          else
            match pyFloat kv.2 with
            | .error e => .error e
            | .ok q => .ok (kv.1, Val.num (q * factor))) row with
      | .error e => .error e
      | .ok row' => writerowDict header row') f.rows with
  | .error e => .error e
  | .ok rows => .ok ⟨header, rows⟩

/-- `convert_prices`: convert `prices.csv` (header from the Identifier
Registry) and then `bundle_prices.csv` (header from the Bundle Registry). -/
def convert_prices (factor : ℚ) (st : AppState) : OpResult :=
  match _convert_price_file_values st.prices ("timestamp" :: st.ids) factor with
  | .error e => ⟨st, some e⟩
  | .ok f1 =>
    let st1 := { st with prices := f1 }
    match _convert_price_file_values st1.bundle_prices
        ("timestamp" :: load_bundle_ids st1) factor with
    | .error e => ⟨st1, some e⟩
    | .ok f2 => ⟨{ st1 with bundle_prices := f2 }, none⟩

/-- Replace the value at a key in an accumulator map (`accs[c] = f accs[c]`;
the key is always present, having been seeded from the same id list). -/
def updateA {σ : Type} (l : List (String × σ)) (k : String) (f : σ → σ) :
    List (String × σ) :=
  l.map (fun kv => if kv.1 = k then (kv.1, f kv.2) else kv)

/-- The `for cur_id in cryptocurrency_ids` body shared by the loaders: look
the column up in the row, convert with `float`, and step that column's
accumulator. -/
def colRowStep {σ : Type} (f : σ → ℚ → σ) (cols : List String)
    (accs : List (String × σ)) (row : Row) : Except PyError (List (String × σ)) :=
  foldlME (fun accs c =>
    match lookupA row c with
    | none => .error (.keyError c)
    | some v =>
      match pyFloat v with
      | .error e => .error e
      | .ok q => .ok (updateA accs c (fun a => f a q))) accs cols

/-- The row loop of the loaders: fold `colRowStep` over all data rows. -/
def colScan {σ : Type} (f : σ → ℚ → σ) (cols : List String) (rows : List Row)
    (accs : List (String × σ)) : Except PyError (List (String × σ)) :=
  foldlME (colRowStep f cols) accs rows

/-- All `float` values of one column, in row order (`float(row[c])` per row). -/
def columnFloats (rows : List Row) (c : String) : Except PyError (List ℚ) :=
  mapME (fun r =>
    match lookupA r c with
    | none => .error (.keyError c)
    | some v => pyFloat v) rows

/-- The `timestamp` cells of the rows, in order (kept opaque: the
`datetime.fromisoformat` parse is not modelled). -/
def timestampsOf (rows : List Row) : Except PyError (List Val) :=
  mapME (fun r =>
    match lookupA r "timestamp" with
    | none => .error (.keyError "timestamp")
    | some v => .ok v) rows

/-- `if not cryptocurrency_ids: cryptocurrency_ids = load_cryptocurrency_ids()`
(`None` and the empty list are both falsy). -/
def effectiveIds (ids? : Option (List String)) (st : AppState) : List String :=
  match ids? with
  | none => st.ids
  | some l => if l.isEmpty then st.ids else l

/-- The per-column accumulator step of `load_cryptocur_prices` and
`_load_plotting_prices`: append the value only when it is `> 0`. -/
def serStep (acc : List ℚ) (num : ℚ) : List ℚ :=
  if 0 < num then acc ++ [num] else acc

/-- `load_cryptocur_prices`: the shared timestamp sequence plus, per id, the
sequence of its stored values that are `> 0`. -/
def load_cryptocur_prices (ids? : Option (List String)) (st : AppState) :
    Except PyError (List Val × List (String × List ℚ)) :=
  let ids := effectiveIds ids? st
  match timestampsOf st.prices.rows with
  | .error e => .error e
  | .ok ts =>
    match colScan serStep ids st.prices.rows (ids.map (fun c => (c, []))) with
    | .error e => .error e
    | .ok accs => .ok (ts, accs)

/-- `get_csv_line_count`: newline count minus one; for a well-formed CSV
file (header line plus one line per row) this is the number of data rows. -/
def get_csv_line_count (f : CsvFile) : ℕ := f.rows.length

/-- `calculate_plotting_point_ratio`: `1` below 2000 rows of `prices.csv`,
else `row_count // 1000`. -/
def calculate_plotting_point_ratio (st : AppState) : ℕ :=
  let prices_line_count := get_csv_line_count st.prices
  if prices_line_count ≥ 2000 then prices_line_count / 1000 else 1

/-- The rows `_load_plotting_prices` actually processes: every row whose
0-based line number is divisible by the point ratio. -/
def sampledRows (rows : List Row) (ratio : ℕ) : List Row :=
  (rows.enum.filter (fun p => p.1 % ratio = 0)).map Prod.snd

/-- `_load_plotting_prices`: like `load_cryptocur_prices` but only over every
`ratio`-th row, with the same `> 0` filter. -/
def _load_plotting_prices (f : CsvFile) (columns : List String) (ratio : ℕ) :
    Except PyError (List Val × List (String × List ℚ)) :=
  let rows := sampledRows f.rows ratio
  match timestampsOf rows with
  | .error e => .error e
  | .ok ts =>
    match colScan serStep columns rows (columns.map (fun c => (c, []))) with
    | .error e => .error e
    | .ok accs => .ok (ts, accs)

/-- `load_cryptocur_plot_prices`. -/
def load_cryptocur_plot_prices (ids? : Option (List String)) (st : AppState) :
    Except PyError (List Val × List (String × List ℚ)) :=
  _load_plotting_prices st.prices (effectiveIds ids? st)
    (calculate_plotting_point_ratio st)

/-- `if not bundle_ids: bundle_ids = load_bundle_ids()`. -/
def effectiveBundleIds (ids? : Option (List String)) (st : AppState) : List String :=
  match ids? with
  | none => load_bundle_ids st
  | some l => if l.isEmpty then load_bundle_ids st else l

/-- `load_bundle_plot_prices` (the point ratio always comes from the Price
Ledger's line count, as in the source). -/
def load_bundle_plot_prices (ids? : Option (List String)) (st : AppState) :
    Except PyError (List Val × List (String × List ℚ)) :=
  _load_plotting_prices st.bundle_prices (effectiveBundleIds ids? st)
    (calculate_plotting_point_ratio st)

/-- The running statistics of one currency: sum and count of its non-zero
prices, and the running min (seeded with the 100000000 sentinel) and max
(seeded with 0). -/
structure StatAcc where
  sum : ℚ
  count : ℕ
  smin : ℚ
  smax : ℚ
deriving DecidableEq, Repr

/-- The seed of `load_cryptocur_statistics`: sum 0, count 0, min 100000000,
max 0. -/
def statAccInit : StatAcc := ⟨0, 0, 100000000, 0⟩

/-- One step of the statistics scan: skip a zero value, otherwise add to the
sum and count and update max (`num > max`) and min (`num < min`). -/
def statStep (a : StatAcc) (num : ℚ) : StatAcc :=
  if num = 0 then a
  else
    { sum := a.sum + num, count := a.count + 1,
      smax := if a.smax < num then num else a.smax,
      smin := if num < a.smin then num else a.smin }

/-- The reported statistics of one currency. -/
structure CurStats where
  min : ℚ
  max : ℚ
  mean : ℚ
deriving DecidableEq, Repr

/-- The final loop of `load_cryptocur_statistics`: with no non-zero price,
mean and min are set to 0 (max stays as accumulated, i.e. its 0 seed);
otherwise mean is `sum / count`. -/
def statFinalize (a : StatAcc) : CurStats :=
  if a.count = 0 then ⟨0, a.smax, 0⟩
  else ⟨a.smin, a.smax, a.sum / (a.count : ℚ)⟩

/-- `load_cryptocur_statistics`: scan all price rows row-major, then
finalize each currency's accumulator. -/
def load_cryptocur_statistics (ids? : Option (List String)) (st : AppState) :
    Except PyError (List (String × CurStats)) :=
  let ids := effectiveIds ids? st
  match colScan statStep ids st.prices.rows (ids.map (fun c => (c, statAccInit))) with
  | .error e => .error e
  | .ok accs => .ok (accs.map (fun kv => (kv.1, statFinalize kv.2)))

/-! ## Background poller (`background.py`) -/

/-- `THREAD_STATUS` from `constants.py`. -/
inductive THREAD_STATUS where
  | STOPPED
  | RUNNING
  | PAUSED
deriving DecidableEq, Repr

/-- `MAX_UPDATE_RETRIES` from `constants.py`. -/
def MAX_UPDATE_RETRIES : ℕ := 3

/-- The mutable fields of `BackgroundUpdateThread`: the never-reset error
counter, the cancellation event `_stop`, the cached currency id list, the
fiat code, and the observable status. -/
structure UpdateThread where
  error_count : ℕ
  update_time : ℕ
  vs_currency : String
  last_update : String
  stopEvent : Bool
  currency_ids : List String
  status : THREAD_STATUS
deriving DecidableEq, Repr

/-- `BackgroundUpdateThread.__init__`: reads `ids.json`; raises `ValueError`
when it is empty, else starts with a zero error count, a cleared stop event
and status `RUNNING`. -/
def backgroundUpdateThreadNew (st : AppState) (update_time : ℕ)
    (vs_currency : String) : Except PyError UpdateThread :=
  if st.ids.isEmpty then
    .error (.valueError "CANT START UPDATER, NO CRYPTOCURRENCY FOUND")
  else
    .ok ⟨0, update_time, vs_currency, "WAITING UPDATE", false, st.ids, .RUNNING⟩

/-- `pause()`: `RUNNING → PAUSED`, otherwise nothing. -/
def UpdateThread.pause (t : UpdateThread) : UpdateThread :=
  if t.status = .RUNNING then { t with status := .PAUSED } else t

/-- `resume()`: `PAUSED → RUNNING`, otherwise nothing. -/
def UpdateThread.resume (t : UpdateThread) : UpdateThread :=
  if t.status = .PAUSED then { t with status := .RUNNING } else t

/-- `stop()`: set the status to `STOPPED` and set the `_stop` event. -/
def UpdateThread.stop (t : UpdateThread) : UpdateThread :=
  { t with status := .STOPPED, stopEvent := true }

/-- `stopped()`: whether the `_stop` event is set. -/
def UpdateThread.stopped (t : UpdateThread) : Bool := t.stopEvent

/-- `_increase_error_count`: increment, and `stop()` once the count exceeds
`MAX_UPDATE_RETRIES`.  The counter is never reset anywhere. -/
def _increase_error_count (t : UpdateThread) : UpdateThread :=
  let t' := { t with error_count := t.error_count + 1 }
  if MAX_UPDATE_RETRIES < t'.error_count then t'.stop else t'

/-- Whether a fetch outcome is falsy (`None` on a network error or a
non-200/empty payload, or an empty mapping): `if not result`. -/
def fetchFailed : Option (List (String × ℚ)) → Bool
  | none => true
  | some l => l.isEmpty

/-- `_update_prices`, given the already-unwrapped fetch outcome (id to price
in the configured fiat currency) and the current wall-clock string.  Returns
the thread, the app state, how many ledger appends were performed (0, 1 or
2) and whether an exception escaped (which would kill `run()`). -/
def _update_prices (t : UpdateThread) (st : AppState)
    (fetched : Option (List (String × ℚ))) (now : String) :
    UpdateThread × AppState × ℕ × Bool :=
  match fetched with
  | none => (_increase_error_count t, st, 0, false)
  | some prices =>
    if prices.isEmpty then (_increase_error_count t, st, 0, false)
    else
      let data := setA (prices.map (fun p => (p.1, Val.num p.2)))
        "timestamp" (Val.str now)
      let r1 := write_cryptocur_prices_entry data
        (some ("timestamp" :: t.currency_ids)) st
      match r1.error with
      | some _ => (t, r1.state, 0, true)
      | none =>
        let r2 := write_bundle_prices_entry data r1.state
        match r2.error with
        | some _ => (t, r2.state, 1, true)
        | none => ({ t with last_update := now }, r2.state, 2, false)

/-- One event observed by the poller: a tick of `run()`'s loop with the
fetch outcome of that tick, or a foreground control call. -/
inductive PollEvent where
  | tick (fetched : Option (List (String × ℚ))) (now : String)
  | pauseCmd
  | resumeCmd
  | stopCmd
deriving DecidableEq, Repr

/-- The observable state of one poller execution: the thread object, the
data files, whether `run()` has returned (loop exit or escaped exception),
and the cumulative counts of ledger appends and failed fetch attempts. -/
structure RunState where
  thread : UpdateThread
  app : AppState
  exited : Bool
  writes : ℕ
  failures : ℕ
deriving DecidableEq, Repr

/-- One step of a poller execution.  A tick models one iteration of
`run()`'s `while not self.stopped()` loop: once the loop has exited (or an
exception escaped `_update_prices`) ticks do nothing; a tick that finds the
stop event set exits the loop; a tick in `PAUSED` skips the update. -/
def pollStep (rs : RunState) : PollEvent → RunState
  | .pauseCmd => { rs with thread := rs.thread.pause }
  | .resumeCmd => { rs with thread := rs.thread.resume }
  | .stopCmd => { rs with thread := rs.thread.stop }
  | .tick fetched now =>
    if rs.exited then rs
    else if rs.thread.stopped then { rs with exited := true }
    else if rs.thread.status = .RUNNING then
      let r := _update_prices rs.thread rs.app fetched now
      { thread := r.1, app := r.2.1, exited := r.2.2.2,
        writes := rs.writes + r.2.2.1,
        failures := rs.failures + (if fetchFailed fetched then 1 else 0) }
    else rs

/-- A whole poller execution over a list of events. -/
def runPoller (rs : RunState) (events : List PollEvent) : RunState :=
  events.foldl pollStep rs

/-- The run state right after a successful construction of the thread. -/
def startRun (t : UpdateThread) (st : AppState) : RunState := ⟨t, st, false, 0, 0⟩

/-! ## Example fixtures (the data of `tests/test_file.py`) -/

/-- First example price row. -/
def exRow1 : Row :=
  [("timestamp", .str "2022-03-29 14:58:22.365454"), ("bitcoin", .num 47891),
   ("ethereum", .num 0)]

/-- Second example price row. -/
def exRow2 : Row :=
  [("timestamp", .str "2022-03-29 14:59:22.365454"), ("bitcoin", .num 47892),
   ("ethereum", .num 3542)]

/-- The example `prices.csv`. -/
def examplePrices : CsvFile := ⟨["timestamp", "bitcoin", "ethereum"], [exRow1, exRow2]⟩

/-- The example `bundle_prices.csv`. -/
def exampleBundlePrices : CsvFile :=
  ⟨["timestamp", "test"],
   [[("timestamp", .str "2022-03-29 14:58:22.365454"), ("test", .num 478910)],
    [("timestamp", .str "2022-03-29 14:59:22.365454"), ("test", .num 478920)]]⟩

/-- The example application state. -/
def exampleState : AppState :=
  { ids := ["bitcoin", "ethereum"],
    bundles := [("test", [("bitcoin", 10)])],
    prices := examplePrices,
    bundle_prices := exampleBundlePrices }

/-! ## The ledger-mutating operations, as one dispatcher (claim C1) -/

/-- One ledger-mutating operation of the engine: a sample append on either
ledger, a Price Ledger column add/remove, a Bundle Ledger column recompute
(via bundle membership mutation), a bundle column drop, or a currency
conversion. -/
inductive MutOp where
  | appendPrices (data : Row) (header? : Option (List String))
  | appendBundles (data : Row)
  | addColumn (cryptocurrency_id : String)
  | removeColumn (cryptocurrency_id : String)
  | bundleAdd (bundle_id cryptocur_id : String) (amount : ℚ)
  | bundleRemove (bundle_id cryptocur_id : String)
  | dropColumn (bundle_id : String)
  | convertAll (factor : ℚ)
deriving DecidableEq, Repr

/-- Dispatch a mutating operation to the modelled source function. -/
def applyMut (st : AppState) : MutOp → OpResult
  | .appendPrices data header? => write_cryptocur_prices_entry data header? st
  | .appendBundles data => write_bundle_prices_entry data st
  | .addColumn cid => add_new_cryptocurrency cid st
  | .removeColumn cid => remove_cryptocurrency cid st
  | .bundleAdd bid cid amount => add_cryptocur_to_bundle bid cid amount st
  | .bundleRemove bid cid => remove_cryptocur_from_bundle bid cid st
  | .dropColumn bid => delete_bundle bid st
  | .convertAll factor => convert_prices factor st

/-- A ledger file is well-formed when every row has exactly the header's
key list (no missing and no extra columns, in header order). -/
def RowsMatch (f : CsvFile) : Prop := ∀ r ∈ f.rows, rowKeys r = f.header

/-- Both ledgers are well-formed. -/
def LedgersWf (st : AppState) : Prop :=
  RowsMatch st.prices ∧ RowsMatch st.bundle_prices

instance (f : CsvFile) : Decidable (RowsMatch f) := by
  unfold RowsMatch; infer_instance

instance (st : AppState) : Decidable (LedgersWf st) := by
  unfold LedgersWf; infer_instance

/-! ## Basic lemmas about the CSV primitives -/

/-- A row produced by `DictWriter.writerow` has exactly the fieldnames as
its key list. -/
theorem writerowDict_keys {h : List String} {d r : Row}
    (hw : writerowDict h d = .ok r) : rowKeys r = h := by
  unfold writerowDict at hw
  split at hw
  · exact absurd hw (by simp)
  · cases hw
    simp only [rowKeys, List.map_map]
    have hcomp : (Prod.fst ∘ fun k => (k, (lookupA d k).getD (Val.str ""))) = id := rfl
    rw [hcomp, List.map_id]

/-- Every element of a successful `mapME` image satisfies any property
enjoyed by all successful outputs of the function. -/
theorem mapME_mem {α β : Type} {f : α → Except PyError β} {l : List α}
    {out : List β} (h : mapME f l = .ok out) {P : β → Prop}
    (hf : ∀ a b, f a = .ok b → P b) : ∀ b ∈ out, P b := by
  induction l generalizing out with
  | nil =>
    unfold mapME at h
    cases h
    intro b hb
    cases hb
  | cons a l ih =>
    unfold mapME at h
    cases hfa : f a with
    | error e => rw [hfa] at h; exact absurd h (by simp)
    | ok b =>
      rw [hfa] at h
      cases hml : mapME f l with
      | error e => rw [hml] at h; exact absurd h (by simp)
      | ok bs =>
        rw [hml] at h
        cases h
        intro b' hb'
        rcases hb' with _ | hb'
        · exact hf a b hfa
        · exact ih hml b' ‹b' ∈ bs›

/-- A successful `_add_column_to_csv` produces a well-formed file. -/
theorem add_column_wf {f : CsvFile} {c : String} {f' : CsvFile}
    (h : _add_column_to_csv f c = .ok f') : RowsMatch f' := by
  unfold _add_column_to_csv at h
  simp only [] at h
  cases hm : mapME (fun row => writerowDict (f.header ++ [c]) (setA row c (Val.num 0))) f.rows with
  | error e => rw [hm] at h; exact absurd h (by simp)
  | ok rows =>
    rw [hm] at h
    cases h
    intro r hr
    exact mapME_mem hm (fun a b hab => writerowDict_keys hab) r hr

/-- A successful `_remove_column_from_csv` produces a well-formed file. -/
theorem remove_column_wf {f : CsvFile} {c : String} {f' : CsvFile}
    (h : _remove_column_from_csv f c = .ok f') : RowsMatch f' := by
  unfold _remove_column_from_csv at h
  cases hrm : removeFirstE f.header c with
  | error e => rw [hrm] at h; exact absurd h (by simp)
  | ok header =>
    rw [hrm] at h
    simp only [] at h
    cases hm : mapME (fun row =>
        match popKeyE row c with
        | .error e => .error e
        | .ok row' => writerowDict header row') f.rows with
    | error e => rw [hm] at h; exact absurd h (by simp)
    | ok rows =>
      rw [hm] at h
      cases h
      intro r hr
      refine mapME_mem hm (fun a b hab => show rowKeys b = header from ?_) r hr
      cases hp : popKeyE a c with
      | error e => rw [hp] at hab; exact absurd hab (by simp)
      | ok row' => rw [hp] at hab; exact writerowDict_keys hab

/-- A successful `_update_bundle_prices` produces a well-formed file. -/
theorem update_bundle_prices_wf {bid : String} {mem : Bundle} {st : AppState}
    {f' : CsvFile} (h : _update_bundle_prices bid mem st = .ok f') : RowsMatch f' := by
  unfold _update_bundle_prices at h
  simp only [] at h
  cases hm : mapME (fun pr =>
      match bundleBaseRow pr with
      | .error e => .error e
      | .ok row0 =>
        match bundle_row_value pr.1 mem with
        | .error e => .error e
        | .ok s => writerowDict ("timestamp" :: load_bundle_ids st) (setA row0 bid (Val.num s)))
      (zipLongest st.prices.rows st.bundle_prices.rows) with
  | error e => rw [hm] at h; exact absurd h (by simp)
  | ok rows =>
    rw [hm] at h
    cases h
    intro r hr
    refine mapME_mem hm (fun a b hab => show rowKeys b = "timestamp" :: load_bundle_ids st from ?_) r hr
    cases hb0 : bundleBaseRow a with
    | error e => rw [hb0] at hab; exact absurd hab (by simp)
    | ok row0 =>
      rw [hb0] at hab
      cases hv : bundle_row_value a.1 mem with
      | error e => rw [hv] at hab; exact absurd hab (by simp)
      | ok s => rw [hv] at hab; exact writerowDict_keys hab

/-- A successful `_convert_price_file_values` produces a well-formed file. -/
theorem convert_file_wf {f : CsvFile} {header : List String} {factor : ℚ}
    {f' : CsvFile} (h : _convert_price_file_values f header factor = .ok f') :
    RowsMatch f' := by
  unfold _convert_price_file_values at h
  cases hm : mapME (fun row =>
      match mapME (fun (kv : String × Val) =>
          if kv.1 = "timestamp" then .ok kv
          else
            match pyFloat kv.2 with
            | .error e => .error e
            | .ok q => .ok (kv.1, Val.num (q * factor))) row with
      | .error e => .error e
      | .ok row' => writerowDict header row') f.rows with
  | error e => rw [hm] at h; exact absurd h (by simp)
  | ok rows =>
    rw [hm] at h
    cases h
    intro r hr
    refine mapME_mem hm (fun a b hab => show rowKeys b = header from ?_) r hr
    cases hi : mapME (fun (kv : String × Val) =>
        if kv.1 = "timestamp" then .ok kv
        else
          match pyFloat kv.2 with
          | .error e => .error e
          | .ok q => .ok (kv.1, Val.num (q * factor))) a with
    | error e => rw [hi] at hab; exact absurd hab (by simp)
    | ok row' => rw [hi] at hab; exact writerowDict_keys hab

/-- Appending a sample written against the ledger's own header preserves
well-formedness of both ledgers. -/
theorem write_prices_entry_wf {st : AppState} {data : Row}
    {header? : Option (List String)} (hwf : LedgersWf st)
    (hh : writeEntryHeader st header? = st.prices.header) :
    LedgersWf (write_cryptocur_prices_entry data header? st).state := by
  unfold write_cryptocur_prices_entry
  simp only []
  split
  · exact hwf
  · cases hw : writerowDict (writeEntryHeader st header?) data with
    | error e => simp only [hw]; exact hwf
    | ok row =>
      simp only [hw]
      refine ⟨?_, hwf.2⟩
      intro r hr
      rcases List.mem_append.mp hr with h1 | h2
      · exact hwf.1 r h1
      · rw [List.mem_singleton.mp h2]
        exact (writerowDict_keys hw).trans hh

/-- Appending a bundle sample when the Bundle Ledger header matches the
Bundle Registry preserves well-formedness of both ledgers. -/
theorem write_bundle_entry_wf {st : AppState} {data : Row} (hwf : LedgersWf st)
    (hh : "timestamp" :: load_bundle_ids st = st.bundle_prices.header) :
    LedgersWf (write_bundle_prices_entry data st).state := by
  unfold write_bundle_prices_entry
  cases hts : lookupA data "timestamp" with
  | none => simp only [hts]; exact hwf
  | some ts =>
    simp only [hts]
    cases hm : mapME (fun (b : String × Bundle) =>
        match bundle_row_value (some data) b.2 with
        | .error e => .error e
        | .ok s => .ok (b.1, Val.num s)) st.bundles with
    | error e => simp only [hm]; exact hwf
    | ok vals =>
      simp only [hm]
      cases hw : writerowDict ("timestamp" :: load_bundle_ids st)
          (vals.foldl (fun r kv => setA r kv.1 kv.2) [("timestamp", ts)]) with
      | error e => simp only [hw]; exact hwf
      | ok row =>
        simp only [hw]
        refine ⟨hwf.1, ?_⟩
        intro r hr
        rcases List.mem_append.mp hr with h1 | h2
        · exact hwf.2 r h1
        · rw [List.mem_singleton.mp h2]
          exact (writerowDict_keys hw).trans hh

/-- `add_new_cryptocurrency` preserves well-formedness of both ledgers. -/
theorem add_cryptocurrency_wf {st : AppState} {cid : String} (hwf : LedgersWf st) :
    LedgersWf (add_new_cryptocurrency cid st).state := by
  unfold add_new_cryptocurrency
  split
  · exact hwf
  · simp only []
    cases ha : _add_column_to_csv st.prices cid with
    | error e => simp only [ha]; exact hwf
    | ok f => simp only [ha]; exact ⟨add_column_wf ha, hwf.2⟩

/-- `remove_cryptocurrency` preserves well-formedness of both ledgers. -/
theorem remove_cryptocurrency_wf {st : AppState} {cid : String} (hwf : LedgersWf st) :
    LedgersWf (remove_cryptocurrency cid st).state := by
  unfold remove_cryptocurrency
  split
  · exact hwf
  · split
    · exact hwf
    · simp only []
      cases ha : _remove_column_from_csv st.prices cid with
      | error e => simp only [ha]; exact hwf
      | ok f => simp only [ha]; exact ⟨remove_column_wf ha, hwf.2⟩

/-- `add_cryptocur_to_bundle` preserves well-formedness of both ledgers. -/
theorem bundle_add_wf {st : AppState} {bid cid : String} {amount : ℚ}
    (hwf : LedgersWf st) :
    LedgersWf (add_cryptocur_to_bundle bid cid amount st).state := by
  unfold add_cryptocur_to_bundle
  split
  · exact hwf
  · cases hb : lookupA st.bundles bid with
    | none => simp only [hb]; exact hwf
    | some bundle =>
      simp only [hb]
      split
      · exact hwf
      · cases hu : _update_bundle_prices bid (setA bundle cid amount)
            { st with bundles := setA st.bundles bid (setA bundle cid amount) } with
        | error e => simp only [hu]; exact hwf
        | ok f => simp only [hu]; exact ⟨hwf.1, update_bundle_prices_wf hu⟩

/-- `remove_cryptocur_from_bundle` preserves well-formedness of both
ledgers. -/
theorem bundle_remove_wf {st : AppState} {bid cid : String} (hwf : LedgersWf st) :
    LedgersWf (remove_cryptocur_from_bundle bid cid st).state := by
  unfold remove_cryptocur_from_bundle
  cases hb : lookupA st.bundles bid with
  | none => simp only [hb]; exact hwf
  | some bundle =>
    simp only [hb]
    split
    · exact hwf
    · cases hu : _update_bundle_prices bid (popA bundle cid)
          { st with bundles := setA st.bundles bid (popA bundle cid) } with
      | error e => simp only [hu]; exact hwf
      | ok f => simp only [hu]; exact ⟨hwf.1, update_bundle_prices_wf hu⟩

/-- `delete_bundle` preserves well-formedness of both ledgers. -/
theorem delete_bundle_wf {st : AppState} {bid : String} (hwf : LedgersWf st) :
    LedgersWf (delete_bundle bid st).state := by
  unfold delete_bundle
  cases hb : lookupA st.bundles bid with
  | none => simp only [hb]; exact hwf
  | some bundle =>
    simp only [hb]
    split
    · exact hwf
    · cases hr : _remove_column_from_csv
          { st with bundles := popA st.bundles bid }.bundle_prices bid with
      | error e => simp only [hr]; exact hwf
      | ok f => simp only [hr]; exact ⟨hwf.1, remove_column_wf hr⟩

/-- `convert_prices` preserves well-formedness of both ledgers. -/
theorem convert_prices_wf {st : AppState} {factor : ℚ} (hwf : LedgersWf st) :
    LedgersWf (convert_prices factor st).state := by
  unfold convert_prices
  cases h1 : _convert_price_file_values st.prices ("timestamp" :: st.ids) factor with
  | error e => simp only [h1]; exact hwf
  | ok f1 =>
    simp only [h1]
    cases h2 : _convert_price_file_values
        { st with prices := f1 }.bundle_prices
        ("timestamp" :: load_bundle_ids { st with prices := f1 }) factor with
    | error e => simp only [h2]; exact ⟨convert_file_wf h1, hwf.2⟩
    | ok f2 => simp only [h2]; exact ⟨convert_file_wf h1, convert_file_wf h2⟩

/-- C1: after every ledger-mutating operation — a sample append on either
ledger (written against the ledger's current header, which is the
operation's contract), a Price Ledger column add or remove, a Bundle Ledger
column recompute (including its synthesized rows when the Bundle Ledger is
shorter than the Price Ledger), a bundle column drop, and a currency
conversion — every row of both ledger files has exactly the current header
as its key list: no missing and no extra columns.  This also holds for the
state at which a failed operation raises. -/
theorem c1_rows_match_header (st : AppState) (hwf : LedgersWf st) :
    (∀ data header?, writeEntryHeader st header? = st.prices.header →
       LedgersWf (applyMut st (.appendPrices data header?)).state) ∧
    (∀ data, "timestamp" :: load_bundle_ids st = st.bundle_prices.header →
       LedgersWf (applyMut st (.appendBundles data)).state) ∧
    (∀ cid, LedgersWf (applyMut st (.addColumn cid)).state) ∧
    (∀ cid, LedgersWf (applyMut st (.removeColumn cid)).state) ∧
    (∀ bid cid amount, LedgersWf (applyMut st (.bundleAdd bid cid amount)).state) ∧
    (∀ bid cid, LedgersWf (applyMut st (.bundleRemove bid cid)).state) ∧
    (∀ bid, LedgersWf (applyMut st (.dropColumn bid)).state) ∧
    (∀ factor, LedgersWf (applyMut st (.convertAll factor)).state) := by
  refine ⟨fun data header? hh => write_prices_entry_wf hwf hh,
    fun data hh => write_bundle_entry_wf hwf hh,
    fun cid => add_cryptocurrency_wf hwf,
    fun cid => remove_cryptocurrency_wf hwf,
    fun bid cid amount => bundle_add_wf hwf,
    fun bid cid => bundle_remove_wf hwf,
    fun bid => delete_bundle_wf hwf,
    fun factor => convert_prices_wf hwf⟩

/-- A foreground control call on the thread object. -/
inductive ThreadControl where
  | pauseC
  | resumeC
  | stopC
deriving DecidableEq, Repr

/-- Apply one foreground control call. -/
def applyControl (t : UpdateThread) : ThreadControl → UpdateThread
  | .pauseC => t.pause
  | .resumeC => t.resume
  | .stopC => t.stop

/-- Apply a sequence of foreground control calls. -/
def applyControls (t : UpdateThread) (cs : List ThreadControl) : UpdateThread :=
  cs.foldl applyControl t

/-- Any control call leaves a stopped thread stopped. -/
theorem applyControl_stopped (t : UpdateThread) (c : ThreadControl)
    (h : t.status = .STOPPED) : (applyControl t c).status = .STOPPED := by
  cases c with
  | pauseC =>
    unfold applyControl UpdateThread.pause
    rw [h]
    simp [h]
  | resumeC =>
    unfold applyControl UpdateThread.resume
    rw [h]
    simp [h]
  | stopC => rfl

/-- C4: the poller is a three-state machine.  Construction reads the
Identifier Registry and fails with the validation error when it is empty,
otherwise the thread starts in `RUNNING`; `pause()` moves `RUNNING` to
`PAUSED` and is a no-op in any other state; `resume()` moves `PAUSED` to
`RUNNING` and is a no-op in any other state; `stop()` moves any state to
`STOPPED`; and no sequence of subsequent `pause()`/`resume()` (or further
`stop()`) calls ever leaves `STOPPED`. -/
theorem c4_thread_state_machine :
    (∀ st ut vs, st.ids = [] →
      backgroundUpdateThreadNew st ut vs =
        .error (.valueError "CANT START UPDATER, NO CRYPTOCURRENCY FOUND")) /\
    (∀ st ut vs t, backgroundUpdateThreadNew st ut vs = .ok t →
      t.status = .RUNNING) /\
    (∀ t : UpdateThread, t.status = .RUNNING →
      t.pause = { t with status := .PAUSED }) /\
    (∀ t : UpdateThread, t.status ≠ .RUNNING → t.pause = t) /\
    (∀ t : UpdateThread, t.status = .PAUSED →
      t.resume = { t with status := .RUNNING }) /\
    (∀ t : UpdateThread, t.status ≠ .PAUSED → t.resume = t) /\
    (∀ t : UpdateThread, t.stop.status = .STOPPED) /\
    (∀ t cs, t.status = .STOPPED → (applyControls t cs).status = .STOPPED) := by
  refine ⟨?_, ?_, ?_, ?_, ?_, ?_, ?_, ?_⟩
  · intro st ut vs h
    unfold backgroundUpdateThreadNew
    rw [h]
    rfl
  · intro st ut vs t h
    unfold backgroundUpdateThreadNew at h
    split at h
    · exact absurd h (by simp)
    · cases h
      rfl
  · intro t h
    unfold UpdateThread.pause
    rw [if_pos h]
  · intro t h
    unfold UpdateThread.pause
    rw [if_neg (by simpa using h)]
  · intro t h
    unfold UpdateThread.resume
    rw [if_pos h]
  · intro t h
    unfold UpdateThread.resume
    rw [if_neg (by simpa using h)]
  · intro t
    rfl
  · intro t cs h
    induction cs generalizing t with
    | nil => exact h
    | cons c cs ih => exact ih (applyControl t c) (applyControl_stopped t c h)

/-- A concrete running thread used by the witnesses. -/
def exThread : UpdateThread :=
  ⟨0, 60, "usd", "WAITING UPDATE", false, ["bitcoin", "ethereum"], .RUNNING⟩

/-- Witness for C4 at concrete inputs: construction on an empty registry
raises, construction on the example registry yields `RUNNING`, the
transitions behave as claimed on a concrete thread, and a stopped thread
survives a concrete control sequence. -/
theorem c4_witness :
    backgroundUpdateThreadNew { exampleState with ids := [] } 60 "usd" =
      .error (.valueError "CANT START UPDATER, NO CRYPTOCURRENCY FOUND") /\
    exThread.status = .RUNNING /\
    exThread.pause = { exThread with status := .PAUSED } /\
    exThread.stop.pause = exThread.stop /\
    { exThread with status := .PAUSED }.resume = exThread /\
    exThread.resume = exThread /\
    exThread.stop.status = .STOPPED /\
    (applyControls exThread.stop [.pauseC, .resumeC, .pauseC]).status = .STOPPED := by
  have h := c4_thread_state_machine
  refine ⟨h.1 _ 60 "usd" rfl, ?_, h.2.2.1 exThread rfl, ?_, ?_, ?_,
    h.2.2.2.2.2.2.1 exThread, h.2.2.2.2.2.2.2 exThread.stop _ rfl⟩
  · rfl
  · exact h.2.2.2.1 exThread.stop (by decide)
  · exact h.2.2.2.2.1 { exThread with status := .PAUSED } rfl
  · exact h.2.2.2.2.2.1 exThread (by decide)

/-- A failed (falsy) fetch only increments the error counter. -/
theorem update_prices_failure (t : UpdateThread) (st : AppState)
    (fetched : Option (List (String × ℚ))) (now : String)
    (h : fetchFailed fetched = true) :
    _update_prices t st fetched now = (_increase_error_count t, st, 0, false) := by
  cases fetched with
  | none => rfl
  | some prices =>
    have he : prices.isEmpty = true := by simpa [fetchFailed] using h
    simp [_update_prices, he]

/-- A truthy fetch never touches the error counter, the status or the stop
event of the thread. -/
theorem update_prices_success_thread (t : UpdateThread) (st : AppState)
    (fetched : Option (List (String × ℚ))) (now : String)
    (h : fetchFailed fetched = false) :
    (_update_prices t st fetched now).1.error_count = t.error_count ∧
    (_update_prices t st fetched now).1.status = t.status ∧
    (_update_prices t st fetched now).1.stopEvent = t.stopEvent := by
  cases fetched with
  | none => simp [fetchFailed] at h
  | some prices =>
    have he : prices.isEmpty = false := by simpa [fetchFailed] using h
    simp only [_update_prices, he, Bool.false_eq_true, if_false]
    cases h1 : (write_cryptocur_prices_entry
        (setA (prices.map (fun p => (p.1, Val.num p.2))) "timestamp" (Val.str now))
        (some ("timestamp" :: t.currency_ids)) st).error with
    | some e => simp [h1]
    | none =>
      simp only [h1]
      cases h2 : (write_bundle_prices_entry
          (setA (prices.map (fun p => (p.1, Val.num p.2))) "timestamp" (Val.str now))
          (write_cryptocur_prices_entry
            (setA (prices.map (fun p => (p.1, Val.num p.2))) "timestamp" (Val.str now))
            (some ("timestamp" :: t.currency_ids)) st).state).error with
      | some e => simp [h2]
      | none => simp [h2]

/-- `_increase_error_count` increments the counter by one. -/
theorem increase_error_count_count (t : UpdateThread) :
    (_increase_error_count t).error_count = t.error_count + 1 := by
  unfold _increase_error_count UpdateThread.stop
  simp only []
  split <;> rfl

/-- Once the incremented counter exceeds the retry budget the thread is
stopped. -/
theorem increase_error_count_stopped (t : UpdateThread)
    (h : 3 < t.error_count + 1) :
    (_increase_error_count t).status = .STOPPED ∧
    (_increase_error_count t).stopEvent = true := by
  unfold _increase_error_count MAX_UPDATE_RETRIES
  simp only []
  rw [if_pos h]
  exact ⟨rfl, rfl⟩

/-- Below the budget the status and the stop event are untouched. -/
theorem increase_error_count_not_stopped (t : UpdateThread)
    (h : ¬ 3 < t.error_count + 1) :
    (_increase_error_count t).status = t.status ∧
    (_increase_error_count t).stopEvent = t.stopEvent := by
  unfold _increase_error_count MAX_UPDATE_RETRIES
  simp only []
  rw [if_neg h]
  exact ⟨rfl, rfl⟩

/-- The invariant of a poller execution that started from a freshly
constructed thread: the stop event tracks `STOPPED`, the error counter
equals the number of processed failed fetch attempts (it is never reset),
the count never passes 4, and reaching 4 means the thread is stopped. -/
def PollInv (rs : RunState) : Prop :=
  (rs.thread.stopEvent = true ↔ rs.thread.status = .STOPPED) ∧
  rs.thread.error_count = rs.failures ∧
  rs.failures ≤ 4 ∧
  (rs.failures = 4 → rs.thread.status = .STOPPED)

/-- An exited execution ignores ticks. -/
theorem pollStep_tick_exited (rs : RunState)
    (fetched : Option (List (String × ℚ))) (now : String)
    (hex : rs.exited = true) : pollStep rs (.tick fetched now) = rs := by
  unfold pollStep
  simp only []
  rw [if_pos hex]

/-- A tick that finds the stop event set exits the loop and does nothing
else. -/
theorem pollStep_tick_stopev (rs : RunState)
    (fetched : Option (List (String × ℚ))) (now : String)
    (hex : rs.exited = false) (hstp : rs.thread.stopped = true) :
    pollStep rs (.tick fetched now) = { rs with exited := true } := by
  unfold pollStep
  simp only []
  rw [if_neg (by simp [hex]), if_pos hstp]

/-- A tick in a paused (or otherwise non-running, non-stopped) state does
nothing. -/
theorem pollStep_tick_not_running (rs : RunState)
    (fetched : Option (List (String × ℚ))) (now : String)
    (hex : rs.exited = false) (hstp : rs.thread.stopped = false)
    (hr : rs.thread.status ≠ .RUNNING) :
    pollStep rs (.tick fetched now) = rs := by
  unfold pollStep
  simp only []
  rw [if_neg (by simp [hex]), if_neg (by simp [hstp]), if_neg hr]

/-- A tick in `RUNNING` performs one `_update_prices` call and accounts a
failed fetch. -/
theorem pollStep_tick_running (rs : RunState)
    (fetched : Option (List (String × ℚ))) (now : String)
    (hex : rs.exited = false) (hstp : rs.thread.stopped = false)
    (hr : rs.thread.status = .RUNNING) :
    pollStep rs (.tick fetched now) =
      { thread := (_update_prices rs.thread rs.app fetched now).1,
        app := (_update_prices rs.thread rs.app fetched now).2.1,
        exited := (_update_prices rs.thread rs.app fetched now).2.2.2,
        writes := rs.writes + (_update_prices rs.thread rs.app fetched now).2.2.1,
        failures := rs.failures + (if fetchFailed fetched then 1 else 0) } := by
  unfold pollStep
  simp only []
  rw [if_neg (by simp [hex]), if_neg (by simp [hstp]), if_pos hr]

/-- `pollStep` preserves the poller invariant. -/
theorem pollStep_inv (rs : RunState) (e : PollEvent) (h : PollInv rs) :
    PollInv (pollStep rs e) := by
  obtain ⟨h1, h2, h3, h4⟩ := h
  cases e with
  | pauseCmd =>
    unfold pollStep UpdateThread.pause
    by_cases hr : rs.thread.status = .RUNNING
    · rw [if_pos hr]
      have hev : rs.thread.stopEvent = false := by
        cases he : rs.thread.stopEvent
        · rfl
        · rw [hr] at h1; exact absurd (h1.mp he) (by simp)
      refine ⟨by simp [hev], h2, h3, fun hf => ?_⟩
      rw [hr] at h4
      exact absurd (h4 hf) (by simp)
    · rw [if_neg hr]
      exact ⟨h1, h2, h3, h4⟩
  | resumeCmd =>
    unfold pollStep UpdateThread.resume
    by_cases hr : rs.thread.status = .PAUSED
    · rw [if_pos hr]
      have hev : rs.thread.stopEvent = false := by
        cases he : rs.thread.stopEvent
        · rfl
        · rw [hr] at h1; exact absurd (h1.mp he) (by simp)
      refine ⟨by simp [hev], h2, h3, fun hf => ?_⟩
      rw [hr] at h4
      exact absurd (h4 hf) (by simp)
    · rw [if_neg hr]
      exact ⟨h1, h2, h3, h4⟩
  | stopCmd =>
    unfold pollStep UpdateThread.stop
    exact ⟨by simp, h2, h3, fun _ => rfl⟩
  | tick fetched now =>
    by_cases hex : rs.exited
    · rw [pollStep_tick_exited rs fetched now hex]
      exact ⟨h1, h2, h3, h4⟩
    · have hex' : rs.exited = false := by simpa using hex
      by_cases hstp : rs.thread.stopped = true
      · rw [pollStep_tick_stopev rs fetched now hex' hstp]
        exact ⟨h1, h2, h3, h4⟩
      · have hstp' : rs.thread.stopped = false := by simpa using hstp
        by_cases hr : rs.thread.status = .RUNNING
        · rw [pollStep_tick_running rs fetched now hex' hstp' hr]
          have hne4 : rs.failures ≠ 4 := fun hf => by
            rw [hr] at h4; exact absurd (h4 hf) (by simp)
          cases hf : fetchFailed fetched with
          | true =>
            rw [update_prices_failure rs.thread rs.app fetched now hf]
            unfold PollInv
            dsimp only
            have hcnt := increase_error_count_count rs.thread
            refine ⟨?_, by simp [hcnt, h2], by simp; omega, ?_⟩
            · by_cases hth : 3 < rs.thread.error_count + 1
              · obtain ⟨hs, he⟩ := increase_error_count_stopped rs.thread hth
                simp [hs, he]
              · obtain ⟨hs, he⟩ := increase_error_count_not_stopped rs.thread hth
                rw [hs, he]
                exact h1
            · intro hf4
              have : rs.failures + 1 = 4 := by simpa using hf4
              have hth : 3 < rs.thread.error_count + 1 := by omega
              exact (increase_error_count_stopped rs.thread hth).1
          | false =>
            obtain ⟨hc, hs, he⟩ :=
              update_prices_success_thread rs.thread rs.app fetched now hf
            unfold PollInv
            dsimp only
            refine ⟨by rw [he, hs]; exact h1, by simp [hc, h2], by simp [h3], ?_⟩
            intro hf4
            have : rs.failures = 4 := by simpa using hf4
            exact absurd this hne4
        · rw [pollStep_tick_not_running rs fetched now hex' hstp' hr]
          exact ⟨h1, h2, h3, h4⟩

/-- `runPoller` preserves the poller invariant. -/
theorem runPoller_inv (es : List PollEvent) :
    ∀ rs : RunState, PollInv rs → PollInv (runPoller rs es) := by
  induction es with
  | nil => exact fun rs h => h
  | cons e es ih => exact fun rs h => ih (pollStep rs e) (pollStep_inv rs e h)

/-- Once the thread is stopped (status and event both set), no later event
changes the ledgers or performs a write, and the thread stays stopped. -/
theorem runPoller_stopped_frozen (es : List PollEvent) :
    ∀ rs : RunState, rs.thread.status = .STOPPED → rs.thread.stopEvent = true →
    (runPoller rs es).writes = rs.writes ∧ (runPoller rs es).app = rs.app ∧
    (runPoller rs es).thread.status = .STOPPED ∧
    (runPoller rs es).thread.stopEvent = true := by
  induction es with
  | nil => exact fun rs h1 h2 => ⟨rfl, rfl, h1, h2⟩
  | cons e es ih =>
    intro rs h1 h2
    have hstep : (pollStep rs e).writes = rs.writes ∧ (pollStep rs e).app = rs.app ∧
        (pollStep rs e).thread.status = .STOPPED ∧
        (pollStep rs e).thread.stopEvent = true := by
      cases e with
      | tick fetched now =>
        by_cases hex : rs.exited
        · rw [pollStep_tick_exited rs fetched now hex]
          exact ⟨rfl, rfl, h1, h2⟩
        · rw [pollStep_tick_stopev rs fetched now (by simpa using hex)
            (by simpa [UpdateThread.stopped] using h2)]
          exact ⟨rfl, rfl, h1, h2⟩
      | pauseCmd =>
        unfold pollStep UpdateThread.pause
        rw [if_neg (by simp [h1])]
        exact ⟨rfl, rfl, h1, h2⟩
      | resumeCmd =>
        unfold pollStep UpdateThread.resume
        rw [if_neg (by simp [h1])]
        exact ⟨rfl, rfl, h1, h2⟩
      | stopCmd =>
        unfold pollStep UpdateThread.stop
        exact ⟨rfl, rfl, rfl, rfl⟩
    obtain ⟨hw, ha, hs, he⟩ := hstep
    obtain ⟨hw', ha', hs', he'⟩ := ih (pollStep rs e) hs he
    exact ⟨hw'.trans hw, ha'.trans ha, hs', he'⟩

/-- Along a trace with no foreground `stop()` call, the thread can only be
stopped by the error threshold, i.e. with exactly 4 recorded failures. -/
theorem runPoller_stopped_only_at_four (es : List PollEvent) :
    ∀ rs : RunState, PollInv rs → (∀ e ∈ es, e ≠ .stopCmd) →
    (rs.thread.status = .STOPPED → rs.failures = 4) →
    ((runPoller rs es).thread.status = .STOPPED → (runPoller rs es).failures = 4) := by
  induction es with
  | nil => exact fun rs _ _ h4 => h4
  | cons e es ih =>
    intro rs hinv hns h4
    obtain ⟨h1, h2, h3, hi4⟩ := hinv
    refine ih (pollStep rs e) (pollStep_inv rs e ⟨h1, h2, h3, hi4⟩)
      (fun e' he' => hns e' (List.mem_cons_of_mem _ he')) ?_
    cases e with
    | pauseCmd =>
      unfold pollStep UpdateThread.pause
      by_cases hr : rs.thread.status = .RUNNING
      · rw [if_pos hr]
        intro hcon
        exact absurd hcon (by simp)
      · rw [if_neg hr]
        exact h4
    | resumeCmd =>
      unfold pollStep UpdateThread.resume
      by_cases hr : rs.thread.status = .PAUSED
      · rw [if_pos hr]
        intro hcon
        exact absurd hcon (by simp)
      · rw [if_neg hr]
        exact h4
    | stopCmd => exact absurd rfl (hns .stopCmd (List.mem_cons_self _ _))
    | tick fetched now =>
      by_cases hex : rs.exited
      · rw [pollStep_tick_exited rs fetched now hex]
        exact h4
      · have hex' : rs.exited = false := by simpa using hex
        by_cases hstp : rs.thread.stopped = true
        · rw [pollStep_tick_stopev rs fetched now hex' hstp]
          exact h4
        · have hstp' : rs.thread.stopped = false := by simpa using hstp
          by_cases hr : rs.thread.status = .RUNNING
          · rw [pollStep_tick_running rs fetched now hex' hstp' hr]
            have hne4 : rs.failures ≠ 4 := fun hf => by
              rw [hr] at hi4; exact absurd (hi4 hf) (by simp)
            cases hf : fetchFailed fetched with
            | true =>
              rw [update_prices_failure rs.thread rs.app fetched now hf]
              dsimp only
              intro hs
              by_cases hth : 3 < rs.thread.error_count + 1
              · rw [h2] at hth
                have h33 : rs.failures = 3 := by omega
                simp [h33]
              · obtain ⟨hst, _⟩ := increase_error_count_not_stopped rs.thread hth
                rw [hst, hr] at hs
                exact absurd hs (by simp)
            | false =>
              obtain ⟨hc, hs, he⟩ :=
                update_prices_success_thread rs.thread rs.app fetched now hf
              dsimp only
              intro hcon
              rw [hs, hr] at hcon
              exact absurd hcon (by simp)
          · rw [pollStep_tick_not_running rs fetched now hex' hstp' hr]
            exact h4

/-- A successfully constructed thread starts with a zero error counter, a
cleared stop event and status `RUNNING`. -/
theorem backgroundUpdateThreadNew_ok {st : AppState} {ut : ℕ} {vs : String}
    {t : UpdateThread} (h : backgroundUpdateThreadNew st ut vs = .ok t) :
    t.error_count = 0 ∧ t.stopEvent = false ∧ t.status = .RUNNING := by
  unfold backgroundUpdateThreadNew at h
  split at h
  · exact absurd h (by simp)
  · cases h
    exact ⟨rfl, rfl, rfl⟩

/-- C3: for every poller execution started from a successfully constructed
thread, the error counter always equals the number of failed fetch attempts
processed so far (the attempts need not be consecutive and the counter is
never reset), it never passes 4, after exactly 4 total failed fetch
attempts the status is `STOPPED` and no subsequent tick performs any ledger
write (the write count and the files are frozen), and — absent a foreground
`stop()` call — the poller is never `STOPPED` with fewer than 4 failures. -/
theorem c3_poller_stops_after_four_failures (stc st0 : AppState) (ut : ℕ)
    (vs : String) (t0 : UpdateThread)
    (hinit : backgroundUpdateThreadNew stc ut vs = .ok t0)
    (events : List PollEvent) :
    (runPoller (startRun t0 st0) events).thread.error_count =
      (runPoller (startRun t0 st0) events).failures ∧
    (runPoller (startRun t0 st0) events).failures ≤ 4 ∧
    ((runPoller (startRun t0 st0) events).failures = 4 →
      (runPoller (startRun t0 st0) events).thread.status = .STOPPED ∧
      ∀ more, (runPoller (runPoller (startRun t0 st0) events) more).writes =
          (runPoller (startRun t0 st0) events).writes ∧
        (runPoller (runPoller (startRun t0 st0) events) more).app =
          (runPoller (startRun t0 st0) events).app) ∧
    ((∀ e ∈ events, e ≠ .stopCmd) →
      (runPoller (startRun t0 st0) events).failures < 4 →
      ¬ (runPoller (startRun t0 st0) events).thread.status = .STOPPED) := by
  obtain ⟨hc, he, hs⟩ := backgroundUpdateThreadNew_ok hinit
  have hinv0 : PollInv (startRun t0 st0) := by
    refine ⟨?_, ?_, ?_, ?_⟩
    · constructor
      · intro h
        rw [show (startRun t0 st0).thread = t0 from rfl, he] at h
        exact absurd h (by simp)
      · intro h
        rw [show (startRun t0 st0).thread = t0 from rfl, hs] at h
        exact absurd h (by simp)
    · simpa [startRun] using hc
    · simp [startRun]
    · intro h
      simp [startRun] at h
  obtain ⟨h1, h2, h3, h4⟩ := runPoller_inv events (startRun t0 st0) hinv0
  refine ⟨h2, h3, fun hf4 => ?_, fun hns hlt hcon => ?_⟩
  · have hstat := h4 hf4
    have hev := h1.mpr hstat
    exact ⟨hstat, fun more =>
      ⟨(runPoller_stopped_frozen more _ hstat hev).1,
       (runPoller_stopped_frozen more _ hstat hev).2.1⟩⟩
  · have hbase : (startRun t0 st0).thread.status = .STOPPED →
        (startRun t0 st0).failures = 4 := by
      intro h
      rw [show (startRun t0 st0).thread = t0 from rfl, hs] at h
      exact absurd h (by simp)
    have := runPoller_stopped_only_at_four events (startRun t0 st0) hinv0 hns hbase hcon
    omega

/-- Witness for C3: on the example state, four consecutive failed fetches
stop the poller, and a further tick performs no write and leaves the
ledgers untouched. -/
theorem c3_witness :
    (runPoller (startRun exThread exampleState)
      [.tick none "t1", .tick none "t2", .tick none "t3", .tick none "t4"]).thread.status
      = .STOPPED ∧
    (runPoller (runPoller (startRun exThread exampleState)
        [.tick none "t1", .tick none "t2", .tick none "t3", .tick none "t4"])
      [.tick none "t5"]).writes =
    (runPoller (startRun exThread exampleState)
      [.tick none "t1", .tick none "t2", .tick none "t3", .tick none "t4"]).writes := by
  have h := c3_poller_stops_after_four_failures exampleState exampleState 60 "usd"
    exThread (by rfl)
    [.tick none "t1", .tick none "t2", .tick none "t3", .tick none "t4"]
  have hf4 : (runPoller (startRun exThread exampleState)
      [.tick none "t1", .tick none "t2", .tick none "t3", .tick none "t4"]).failures = 4 := by
    decide
  exact ⟨(h.2.2.1 hf4).1, ((h.2.2.1 hf4).2 [.tick none "t5"]).1⟩

/-- The C2 failing input: "bitcoin" is tracked and is already a member of
bundle "test" (weight 10); the ledgers are empty and consistent. -/
def c2State : AppState :=
  { ids := ["bitcoin"],
    bundles := [("test", [("bitcoin", 10)])],
    prices := ⟨["timestamp", "bitcoin"], []⟩,
    bundle_prices := ⟨["timestamp", "test"], []⟩ }

/-- C2 (code bug): the duplicate-membership guard of
`add_cryptocur_to_bundle` tests `cryptocur_id in bundles[bundle_id].values()`
— the weight values, not the member keys — so with numeric weights it can
never fire (a string never equals a number under Python `==`), contradicting
the function's own docstring ("Raises ValueError ... cryptocurrency already
added to bundle").  Concretely, adding "bitcoin" (weight 2) to the bundle
"test" that already contains "bitcoin" (weight 10) raises nothing and
silently overwrites the weight. -/
theorem c2_duplicate_check_dead :
    (∀ (bundle : Bundle) (cid : String),
      ((bundle.map (fun m => Val.num m.2)).contains (Val.str cid)) = false) ∧
    (add_cryptocur_to_bundle "test" "bitcoin" 2 c2State).error = none ∧
    lookupA (add_cryptocur_to_bundle "test" "bitcoin" 2 c2State).state.bundles
      "test" = some [("bitcoin", 2)] := by
  refine ⟨?_, ?_, ?_⟩
  · intro bundle cid
    induction bundle with
    | nil => rfl
    | cons m l ih =>
      simp only [List.map_cons, List.contains_cons, ih, Bool.or_false]
      rfl
  · decide
  · decide

/-- A complete example sample used by the witnesses. -/
def exSample : Row :=
  [("timestamp", .str "2022-03-29 15:00:22.365454"), ("bitcoin", .num 47893),
   ("ethereum", .num 3543)]

/-- Witness for C1: both ledgers of the example state stay well-formed
under one concrete instance of each mutating operation. -/
theorem c1_witness :
    LedgersWf (applyMut exampleState (.appendPrices exSample none)).state ∧
    LedgersWf (applyMut exampleState (.appendBundles exSample)).state ∧
    LedgersWf (applyMut exampleState (.addColumn "cardano")).state ∧
    LedgersWf (applyMut exampleState (.removeColumn "ethereum")).state ∧
    LedgersWf (applyMut exampleState (.bundleAdd "test" "ethereum" 5)).state ∧
    LedgersWf (applyMut exampleState (.bundleRemove "test" "bitcoin")).state ∧
    LedgersWf (applyMut exampleState (.dropColumn "test")).state ∧
    LedgersWf (applyMut exampleState (.convertAll 2)).state := by
  have h := c1_rows_match_header exampleState (by decide)
  exact ⟨h.1 exSample none (by decide), h.2.1 exSample (by decide),
    h.2.2.1 "cardano", h.2.2.2.1 "ethereum", h.2.2.2.2.1 "test" "ethereum" 5,
    h.2.2.2.2.2.1 "test" "bitcoin", h.2.2.2.2.2.2.1 "test", h.2.2.2.2.2.2.2 2⟩

/-- C6: `remove_cryptocurrency` fails with the referenced-asset error
whenever the id is tracked but still a member of some bundle, and with the
not-found error whenever the id is not tracked; in both cases the returned
state is exactly the input state — the Identifier Registry, the Price
Ledger and every other file are untouched (both raises precede any file
write in the source). -/
theorem c6_remove_asset_errors :
    (∀ (cid : String) (st : AppState), cid ∈ st.ids →
      exists_in_bundles cid st = true →
      remove_cryptocurrency cid st =
        ⟨st, some (.valueError "REMOVE CRYPTOCURRENCY FROM BUNDLES BEFORE DELETING IT")⟩) ∧
    (∀ (cid : String) (st : AppState), cid ∉ st.ids →
      remove_cryptocurrency cid st =
        ⟨st, some (.valueError "GIVEN CRYPTOCURRENCY ID NOT FOUND")⟩) := by
  constructor
  · intro cid st hmem hbun
    have hc : st.ids.contains cid = true := by simpa using hmem
    unfold remove_cryptocurrency
    rw [if_neg (by rw [hc]; simp), if_pos hbun]
  · intro cid st hmem
    have hc : st.ids.contains cid = false := by simpa using hmem
    unfold remove_cryptocurrency
    rw [if_pos (by rw [hc]; rfl)]

/-- Witness for C6: on the example state, removing "bitcoin" (still in
bundle "test") raises the referenced error and removing the untracked
"cardano" raises the not-found error; the state is returned unchanged. -/
theorem c6_witness :
    remove_cryptocurrency "bitcoin" exampleState =
      ⟨exampleState,
       some (.valueError "REMOVE CRYPTOCURRENCY FROM BUNDLES BEFORE DELETING IT")⟩ ∧
    remove_cryptocurrency "cardano" exampleState =
      ⟨exampleState, some (.valueError "GIVEN CRYPTOCURRENCY ID NOT FOUND")⟩ :=
  ⟨c6_remove_asset_errors.1 "bitcoin" exampleState (by decide) (by decide),
   c6_remove_asset_errors.2 "cardano" exampleState (by decide)⟩

/-- Looking a key up in a header-projected row yields the projection's
value at that key. -/
theorem lookupA_map_self {σ : Type} (h : List String) (g : String → σ)
    (k : String) (hk : k ∈ h) :
    lookupA (h.map (fun k' => (k', g k'))) k = some (g k) := by
  induction h with
  | nil => cases hk
  | cons a h ih =>
    simp only [List.map_cons, lookupA]
    by_cases hak : a = k
    · rw [if_pos hak, hak]
    · rw [if_neg hak]
      rcases List.mem_cons.mp hk with he | hm
      · exact absurd he.symm hak
      · exact ih hm

/-- C5: `write_cryptocur_prices_entry` raises the validation error
("CRYPTOCURRENCY VALUE MISSING") exactly when the sample lacks a value for
some non-timestamp column of the effective header; on any failure the
returned state is exactly the input state (the raise precedes the write);
and on success exactly one row — the header projection of the sample, which
carries the sample's value at every header column the sample provides — is
appended, with the header and all existing rows unchanged.  (The only other
failure mode is `DictWriter`'s distinct field error for a sample key
outside the header, covered by the unchanged-state conjunct.) -/
theorem c5_append_sample_spec (data : Row) (header? : Option (List String))
    (st : AppState) :
    ((write_cryptocur_prices_entry data header? st).error =
        some (.valueError "CRYPTOCURRENCY VALUE MISSING") ↔
      ∃ c ∈ (writeEntryHeader st header?).drop 1, c ∉ rowKeys data) ∧
    (∀ e, (write_cryptocur_prices_entry data header? st).error = some e →
      (write_cryptocur_prices_entry data header? st).state = st) ∧
    ((write_cryptocur_prices_entry data header? st).error = none →
      (write_cryptocur_prices_entry data header? st).state =
        { st with prices := { st.prices with rows := st.prices.rows ++
            [(writeEntryHeader st header?).map
              (fun k => (k, (lookupA data k).getD (Val.str "")))] } } ∧
      ∀ k v, k ∈ writeEntryHeader st header? → lookupA data k = some v →
        lookupA ((writeEntryHeader st header?).map
          (fun k => (k, (lookupA data k).getD (Val.str "")))) k = some v) := by
  unfold write_cryptocur_prices_entry
  simp only []
  by_cases hv : ((writeEntryHeader st header?).drop 1).any
      (fun c => !(rowKeys data).contains c)
  · rw [if_pos hv]
    refine ⟨?_, fun e _ => rfl, fun hno => absurd hno (by simp)⟩
    constructor
    · intro _
      obtain ⟨c, hcmem, hcnot⟩ := List.any_eq_true.mp hv
      exact ⟨c, hcmem, by simpa using hcnot⟩
    · intro _
      rfl
  · rw [if_neg hv]
    cases hw : writerowDict (writeEntryHeader st header?) data with
    | error e =>
      simp only [hw]
      have hne : e ≠ .valueError "CRYPTOCURRENCY VALUE MISSING" := by
        unfold writerowDict at hw
        split at hw
        · cases hw
          decide
        · exact absurd hw (by simp)
      refine ⟨?_, ?_, ?_⟩
      · constructor
        · intro hcontra
          exact absurd (Option.some_injective _ hcontra) hne
        · intro hex
          obtain ⟨c, hcmem, hcnot⟩ := hex
          exact absurd (List.any_eq_true.mpr ⟨c, hcmem, by simpa using hcnot⟩) hv
      · intro e' he'
        trivial
      · intro hno
        exact absurd hno (by simp)
    | ok row =>
      simp only [hw]
      have hrow : row = (writeEntryHeader st header?).map
          (fun k => (k, (lookupA data k).getD (Val.str ""))) := by
        unfold writerowDict at hw
        split at hw
        · exact absurd hw (by simp)
        · cases hw
          rfl
      refine ⟨⟨fun hcontra => absurd hcontra (by simp), fun hex => ?_⟩,
        fun e' he' => absurd he' (by simp), fun _ => ⟨by rw [hrow], ?_⟩⟩
      · obtain ⟨c, hcmem, hcnot⟩ := hex
        exact absurd (List.any_eq_true.mpr ⟨c, hcmem, by simpa using hcnot⟩) hv
      · intro k v hk hkv
        rw [lookupA_map_self _ _ k hk, hkv]
        rfl

/-- Witness for C5: on the example state, a sample missing the "bitcoin"
price raises the validation error with the state unchanged, and the
complete example sample is appended verbatim as exactly one new row. -/
theorem c5_witness :
    (write_cryptocur_prices_entry [("timestamp", Val.str "t")] none
      exampleState).error = some (.valueError "CRYPTOCURRENCY VALUE MISSING") ∧
    (write_cryptocur_prices_entry [("timestamp", Val.str "t")] none
      exampleState).state = exampleState ∧
    (write_cryptocur_prices_entry exSample none exampleState).error = none ∧
    (write_cryptocur_prices_entry exSample none exampleState).state =
      { exampleState with prices :=
          ⟨examplePrices.header, examplePrices.rows ++ [exSample]⟩ } := by
  have h1 := c5_append_sample_spec [("timestamp", Val.str "t")] none exampleState
  have h2 := c5_append_sample_spec exSample none exampleState
  have herr1 : (write_cryptocur_prices_entry [("timestamp", Val.str "t")] none
      exampleState).error = some (.valueError "CRYPTOCURRENCY VALUE MISSING") :=
    h1.1.mpr ⟨"bitcoin", by decide, by decide⟩
  have herr2 : (write_cryptocur_prices_entry exSample none exampleState).error
      = none := by decide
  exact ⟨herr1, h1.2.1 _ herr1, herr2, ((h2.2.2 herr2).1).trans (by decide)⟩

/-- Removing the element appended at the end recovers the original list
when it did not occur before. -/
theorem removeFirst_append_self (l : List String) (x : String) (hx : x ∉ l) :
    removeFirst (l ++ [x]) x = l := by
  induction l with
  | nil => simp [removeFirst]
  | cons a l ih =>
    have hax : a ≠ x := fun he => hx (he ▸ List.mem_cons_self a l)
    simp only [List.cons_append, removeFirst, if_neg hax]
    exact congrArg (a :: ·) (ih (fun hm => hx (List.mem_cons_of_mem a hm)))

/-- `setA` keeps the key list, appending the key when it is new. -/
theorem setA_keys {σ : Type} (l : List (String × σ)) (k : String) (v : σ) :
    (setA l k v).map Prod.fst =
      if (l.map Prod.fst).contains k then l.map Prod.fst
      else l.map Prod.fst ++ [k] := by
  unfold setA
  split
  · rw [List.map_map]
    congr 1
    funext kv
    by_cases hk : kv.1 = k
    · simp [hk]
    · simp [hk]
  · simp

/-- `popA` acts on the key list as `removeFirst`. -/
theorem popA_keys {σ : Type} (l : List (String × σ)) (x : String) :
    (popA l x).map Prod.fst = removeFirst (l.map Prod.fst) x := by
  induction l with
  | nil => rfl
  | cons kv l ih =>
    simp only [popA, removeFirst, List.map_cons]
    by_cases hk : kv.1 = x
    · rw [if_pos hk, if_pos hk]
    · rw [if_neg hk, if_neg hk, List.map_cons, ih]

/-- `DictWriter.writerow` succeeds on a sample whose keys all lie in the
fieldnames, producing the header projection. -/
theorem writerowDict_ok (h : List String) (d : Row)
    (hsub : ∀ kv ∈ d, kv.1 ∈ h) :
    writerowDict h d =
      .ok (h.map (fun k => (k, (lookupA d k).getD (Val.str "")))) := by
  have hcond : (d.any fun kv => !h.contains kv.1) = false := by
    apply List.any_eq_false.mpr
    intro kv hkv
    simp [hsub kv hkv]
  unfold writerowDict
  rw [hcond]
  rfl

/-- `mapME` succeeds when every element maps successfully. -/
theorem mapME_ok_of_all {α β : Type} (f : α → Except PyError β) (l : List α)
    (h : ∀ a ∈ l, ∃ b, f a = .ok b) : ∃ bs, mapME f l = .ok bs := by
  induction l with
  | nil => exact ⟨[], rfl⟩
  | cons a l ih =>
    obtain ⟨b, hb⟩ := h a (List.mem_cons_self a l)
    obtain ⟨bs, hbs⟩ := ih (fun a' ha' => h a' (List.mem_cons_of_mem a ha'))
    refine ⟨b :: bs, ?_⟩
    unfold mapME
    rw [hb, hbs]

/-- On a well-formed file, adding a column always succeeds and produces the
extended header. -/
theorem add_column_ok (f : CsvFile) (x : String) (hwf : RowsMatch f) :
    ∃ rows, _add_column_to_csv f x = .ok ⟨f.header ++ [x], rows⟩ := by
  have hall : ∀ row ∈ f.rows, ∃ b,
      writerowDict (f.header ++ [x]) (setA row x (Val.num 0)) = .ok b := by
    intro row hrow
    refine ⟨_, writerowDict_ok _ _ ?_⟩
    intro kv hkv
    have hkeys := setA_keys row x (Val.num 0)
    have hk : kv.1 ∈ (setA row x (Val.num 0)).map Prod.fst :=
      List.mem_map.mpr ⟨kv, hkv, rfl⟩
    rw [hkeys] at hk
    split at hk
    · exact List.mem_append_left _ ((hwf row hrow) ▸ hk)
    · rcases List.mem_append.mp hk with h1 | h2
      · exact List.mem_append_left _ ((hwf row hrow) ▸ h1)
      · exact List.mem_append_right _ h2
  obtain ⟨rows, hrows⟩ := mapME_ok_of_all
    (fun row => writerowDict (f.header ++ [x]) (setA row x (Val.num 0))) f.rows hall
  refine ⟨rows, ?_⟩
  unfold _add_column_to_csv
  simp only []
  rw [hrows]

/-- On a well-formed file containing the column, removing it always
succeeds and produces the shortened header. -/
theorem remove_column_ok (f : CsvFile) (x : String) (hx : x ∈ f.header)
    (hwf : RowsMatch f) :
    ∃ rows, _remove_column_from_csv f x = .ok ⟨removeFirst f.header x, rows⟩ := by
  have hrm : removeFirstE f.header x = .ok (removeFirst f.header x) := by
    unfold removeFirstE
    rw [if_pos (by simpa using hx)]
  have hall : ∀ row ∈ f.rows, ∃ b,
      (match popKeyE row x with
       | .error e => .error e
       | .ok row' => writerowDict (removeFirst f.header x) row') = Except.ok b := by
    intro row hrow
    have hkeys : rowKeys row = f.header := hwf row hrow
    have hpop : popKeyE row x = .ok (popA row x) := by
      unfold popKeyE
      rw [if_pos (by rw [hkeys]; simpa using hx)]
    rw [hpop]
    simp only []
    refine ⟨_, writerowDict_ok _ _ ?_⟩
    intro kv hkv
    have hk : kv.1 ∈ (popA row x).map Prod.fst := List.mem_map.mpr ⟨kv, hkv, rfl⟩
    rw [popA_keys] at hk
    rw [show row.map Prod.fst = f.header from hkeys] at hk
    exact hk
  obtain ⟨rows, hrows⟩ := mapME_ok_of_all _ f.rows hall
  refine ⟨rows, ?_⟩
  unfold _remove_column_from_csv
  rw [hrm]
  simp only []
  rw [hrows]

/-- C9: for an identifier not currently tracked (neither in `ids.json` nor
as a Price Ledger column) and not referenced by any bundle, `addAsset` then
`removeAsset` both succeed and restore the Identifier Registry contents and
the Price Ledger header to exactly their pre-add state. -/
theorem c9_add_remove_roundtrip (x : String) (st : AppState)
    (hx_ids : x ∉ st.ids) (hx_hdr : x ∉ st.prices.header)
    (hx_bun : exists_in_bundles x st = false) (hwf : RowsMatch st.prices) :
    (add_new_cryptocurrency x st).error = none ∧
    (add_new_cryptocurrency x st).state.ids = st.ids ++ [x] ∧
    (add_new_cryptocurrency x st).state.prices.header = st.prices.header ++ [x] ∧
    (remove_cryptocurrency x (add_new_cryptocurrency x st).state).error = none ∧
    (remove_cryptocurrency x (add_new_cryptocurrency x st).state).state.ids = st.ids ∧
    (remove_cryptocurrency x (add_new_cryptocurrency x st).state).state.prices.header
      = st.prices.header := by
  obtain ⟨rows1, hadd⟩ := add_column_ok st.prices x hwf
  have haddeq : add_new_cryptocurrency x st =
      { state :=
          { st with
            ids := st.ids ++ [x],
            prices := ⟨st.prices.header ++ [x], rows1⟩ },
        error := none } := by
    unfold add_new_cryptocurrency
    rw [if_neg (by simp [hx_ids])]
    simp only []
    rw [hadd]
  have hwf1 : RowsMatch (⟨st.prices.header ++ [x], rows1⟩ : CsvFile) :=
    add_column_wf hadd
  have hx1 : x ∈ st.prices.header ++ [x] :=
    List.mem_append_right _ (List.mem_singleton.mpr rfl)
  obtain ⟨rows2, hrem⟩ :=
    remove_column_ok ⟨st.prices.header ++ [x], rows1⟩ x hx1 hwf1
  have hremeq : remove_cryptocurrency x
      { st with ids := st.ids ++ [x], prices := ⟨st.prices.header ++ [x], rows1⟩ } =
      { state :=
          { st with
            ids := removeFirst (st.ids ++ [x]) x,
            prices := ⟨removeFirst (st.prices.header ++ [x]) x, rows2⟩ },
        error := none } := by
    unfold remove_cryptocurrency
    rw [if_neg (by simp), if_neg (by simpa [exists_in_bundles] using hx_bun)]
    simp only []
    rw [hrem]
  rw [haddeq]
  simp only []
  rw [hremeq]
  refine ⟨trivial, trivial, trivial, rfl, ?_, ?_⟩
  · exact removeFirst_append_self st.ids x hx_ids
  · exact removeFirst_append_self st.prices.header x hx_hdr

/-- Witness for C9: adding and removing "cardano" on the example state
restores the registry and the Price Ledger header. -/
theorem c9_witness :
    (add_new_cryptocurrency "cardano" exampleState).error = none ∧
    (remove_cryptocurrency "cardano"
      (add_new_cryptocurrency "cardano" exampleState).state).state.ids
      = exampleState.ids ∧
    (remove_cryptocurrency "cardano"
      (add_new_cryptocurrency "cardano" exampleState).state).state.prices.header
      = exampleState.prices.header := by
  have h := c9_add_remove_roundtrip "cardano" exampleState (by decide) (by decide)
    (by decide) (by decide)
  exact ⟨h.1, h.2.2.2.2.1, h.2.2.2.2.2⟩

/-- Looking up after `updateA`: the updated key sees the mapped value, all
other keys are untouched. -/
theorem lookupA_updateA {σ : Type} (l : List (String × σ)) (k k' : String)
    (f : σ → σ) :
    lookupA (updateA l k f) k' =
      if k' = k then (lookupA l k').map f else lookupA l k' := by
  induction l with
  | nil => simp [updateA, lookupA]
  | cons kv l ih =>
    by_cases hk : kv.1 = k
    · by_cases hk' : kv.1 = k'
      · have hkk' : k' = k := hk'.symm.trans hk
        simp only [updateA, List.map_cons, if_pos hk, lookupA, if_pos hk',
          if_pos hkk'] at *
        rfl
      · simp only [updateA, List.map_cons, if_pos hk, lookupA, if_neg hk'] at *
        exact ih
    · by_cases hk' : kv.1 = k'
      · have hk'k : ¬ k' = k := fun he => hk (hk'.trans he)
        simp only [updateA, List.map_cons, if_neg hk, lookupA, if_pos hk',
          if_neg hk'k] at *
      · simp only [updateA, List.map_cons, if_neg hk, lookupA, if_neg hk'] at *
        exact ih

/-- Mapping the values of an association list commutes with lookup. -/
theorem lookupA_map_value {σ τ : Type} (l : List (String × σ)) (g : σ → τ)
    (k : String) :
    lookupA (l.map (fun kv => (kv.1, g kv.2))) k = (lookupA l k).map g := by
  induction l with
  | nil => rfl
  | cons kv l ih =>
    simp only [List.map_cons, lookupA]
    by_cases hk : kv.1 = k
    · rw [if_pos hk, if_pos hk]
      rfl
    · rw [if_neg hk, if_neg hk]
      exact ih

/-- Decompose a successful `columnFloats` over a row cons. -/
theorem columnFloats_cons {r : Row} {rows : List Row} {c : String} {l : List ℚ}
    (h : columnFloats (r :: rows) c = .ok l) :
    ∃ v q l', lookupA r c = some v ∧ pyFloat v = .ok q ∧
      columnFloats rows c = .ok l' ∧ l = q :: l' := by
  unfold columnFloats at h
  unfold mapME at h
  cases hv : lookupA r c with
  | none => rw [hv] at h; exact absurd h (by simp)
  | some v =>
    rw [hv] at h
    simp only [] at h
    cases hq : pyFloat v with
    | error e => rw [hq] at h; exact absurd h (by simp)
    | ok q =>
      rw [hq] at h
      simp only [] at h
      cases hl : mapME (fun r =>
          match lookupA r c with
          | none => Except.error (PyError.keyError c)
          | some v => pyFloat v) rows with
      | error e => rw [hl] at h; exact absurd h (by simp)
      | ok l' =>
        rw [hl] at h
        simp only [] at h
        refine ⟨v, q, l', rfl, hq, hl, ?_⟩
        injection h with h'
        exact h'.symm

/-- One row step of the loaders' scan: when every requested distinct column
has a float value in the row, the step succeeds and folds each column's
accumulator by its value, leaving other keys alone. -/
theorem colRowStep_lookup {σ : Type} (f : σ → ℚ → σ) (cols : List String)
    (row : Row) (vf : String → ℚ) (hnd : cols.Nodup)
    (hv : ∀ c ∈ cols, ∃ v, lookupA row c = some v ∧ pyFloat v = .ok (vf c)) :
    ∀ accs, ∃ accs', colRowStep f cols accs row = .ok accs' ∧
      ∀ c, lookupA accs' c =
        if c ∈ cols then (lookupA accs c).map (fun a => f a (vf c))
        else lookupA accs c := by
  induction cols with
  | nil =>
    intro accs
    exact ⟨accs, rfl, fun c => by simp⟩
  | cons c0 rest ih =>
    intro accs
    obtain ⟨v0, hv0, hq0⟩ := hv c0 (List.mem_cons_self c0 rest)
    have hnd' : rest.Nodup := (List.nodup_cons.mp hnd).2
    have hc0 : c0 ∉ rest := (List.nodup_cons.mp hnd).1
    obtain ⟨accs', hstep, hlook⟩ := ih hnd'
      (fun c hc => hv c (List.mem_cons_of_mem c0 hc))
      (updateA accs c0 (fun a => f a (vf c0)))
    refine ⟨accs', ?_, ?_⟩
    · unfold colRowStep foldlME
      rw [hv0]
      simp only []
      rw [hq0]
      simp only []
      exact hstep
    · intro c
      rw [hlook c]
      by_cases hc : c ∈ rest
      · rw [if_pos hc, if_pos (List.mem_cons_of_mem c0 hc)]
        rw [lookupA_updateA]
        rw [if_neg (fun (he : c = c0) => hc0 (he ▸ hc))]
      · rw [if_neg hc]
        by_cases hc0' : c = c0
        · subst hc0'
          rw [if_pos (List.mem_cons_self c rest), lookupA_updateA, if_pos rfl]
        · rw [lookupA_updateA, if_neg hc0',
            if_neg (fun hm => (List.mem_cons.mp hm).elim hc0' hc)]

/-- The loaders' whole scan: when every requested distinct column has float
values in all rows, the scan succeeds and each column's accumulator is the
fold of its column values. -/
theorem colScan_lookup {σ : Type} (f : σ → ℚ → σ) (cols : List String)
    (hnd : cols.Nodup) :
    ∀ (rows : List Row) (colv : String → List ℚ),
      (∀ c ∈ cols, columnFloats rows c = .ok (colv c)) →
      ∀ accs, ∃ accs', colScan f cols rows accs = .ok accs' ∧
        ∀ c ∈ cols, lookupA accs' c =
          (lookupA accs c).map (fun a => (colv c).foldl f a) := by
  intro rows
  induction rows with
  | nil =>
    intro colv hcol accs
    refine ⟨accs, rfl, fun c hc => ?_⟩
    have h0 : colv c = [] := by
      have := hcol c hc
      unfold columnFloats mapME at this
      cases hx : colv c with
      | nil => rfl
      | cons a l => rw [hx] at this; exact absurd this (by simp)
    rw [h0]
    simp [List.foldl]
  | cons r rows ih =>
    intro colv hcol accs
    have hv : ∀ c ∈ cols, ∃ v, lookupA r c = some v ∧
        pyFloat v = .ok ((colv c).headD 0) := by
      intro c hc
      obtain ⟨v, q, l', hv, hq, _, heq⟩ := columnFloats_cons (hcol c hc)
      exact ⟨v, hv, by rw [heq]; exact hq⟩
    obtain ⟨accs1, hstep, hlook1⟩ :=
      colRowStep_lookup f cols r (fun c => (colv c).headD 0) hnd hv accs
    have hcol' : ∀ c ∈ cols, columnFloats rows c = .ok ((colv c).drop 1) := by
      intro c hc
      obtain ⟨v, q, l', _, _, hl, heq⟩ := columnFloats_cons (hcol c hc)
      rw [heq]
      exact hl
    obtain ⟨accs', hscan, hlook⟩ := ih (fun c => (colv c).drop 1) hcol' accs1
    refine ⟨accs', ?_, ?_⟩
    · unfold colScan foldlME
      rw [show colRowStep f cols accs r = Except.ok accs1 from hstep]
      exact hscan
    · intro c hc
      rw [hlook c hc, hlook1 c, if_pos hc]
      obtain ⟨v, q, l', _, _, _, heq⟩ := columnFloats_cons (hcol c hc)
      rw [heq]
      cases hacc : lookupA accs c with
      | none => rfl
      | some a => simp [List.foldl]

/-- `load_cryptocur_statistics`, factored per currency: each requested id's
reported statistics are the finalized fold of its column values. -/
theorem load_statistics_lookup (ids? : Option (List String)) (st : AppState)
    (colv : String → List ℚ) (hnd : (effectiveIds ids? st).Nodup)
    (hcol : ∀ c ∈ effectiveIds ids? st,
      columnFloats st.prices.rows c = .ok (colv c)) :
    ∃ out, load_cryptocur_statistics ids? st = .ok out ∧
      ∀ c ∈ effectiveIds ids? st, lookupA out c =
        some (statFinalize ((colv c).foldl statStep statAccInit)) := by
  obtain ⟨accs', hscan, hlook⟩ := colScan_lookup statStep (effectiveIds ids? st)
    hnd st.prices.rows colv hcol
    ((effectiveIds ids? st).map (fun c => (c, statAccInit)))
  refine ⟨accs'.map (fun kv => (kv.1, statFinalize kv.2)), ?_, ?_⟩
  · unfold load_cryptocur_statistics
    simp only []
    rw [hscan]
  · intro c hc
    rw [lookupA_map_value, hlook c hc, lookupA_map_self _ _ c hc]
    rfl

/-- `load_cryptocur_prices`, factored per currency. -/
theorem load_prices_lookup (ids? : Option (List String)) (st : AppState)
    (colv : String → List ℚ) (ts : List Val)
    (hnd : (effectiveIds ids? st).Nodup)
    (hts : timestampsOf st.prices.rows = .ok ts)
    (hcol : ∀ c ∈ effectiveIds ids? st,
      columnFloats st.prices.rows c = .ok (colv c)) :
    ∃ accs, load_cryptocur_prices ids? st = .ok (ts, accs) ∧
      ∀ c ∈ effectiveIds ids? st, lookupA accs c =
        some ((colv c).foldl serStep []) := by
  obtain ⟨accs', hscan, hlook⟩ := colScan_lookup serStep (effectiveIds ids? st)
    hnd st.prices.rows colv hcol ((effectiveIds ids? st).map (fun c => (c, [])))
  refine ⟨accs', ?_, ?_⟩
  · unfold load_cryptocur_prices
    simp only []
    rw [hts]
    simp only []
    rw [hscan]
  · intro c hc
    rw [hlook c hc, lookupA_map_self _ _ c hc]
    rfl

/-- `_load_plotting_prices`, factored per column over the sampled rows. -/
theorem plot_prices_lookup (f : CsvFile) (columns : List String) (ratio : ℕ)
    (colv : String → List ℚ) (ts : List Val) (hnd : columns.Nodup)
    (hts : timestampsOf (sampledRows f.rows ratio) = .ok ts)
    (hcol : ∀ c ∈ columns,
      columnFloats (sampledRows f.rows ratio) c = .ok (colv c)) :
    ∃ accs, _load_plotting_prices f columns ratio = .ok (ts, accs) ∧
      ∀ c ∈ columns, lookupA accs c = some ((colv c).foldl serStep []) := by
  obtain ⟨accs', hscan, hlook⟩ := colScan_lookup serStep columns hnd
    (sampledRows f.rows ratio) colv hcol (columns.map (fun c => (c, [])))
  refine ⟨accs', ?_, ?_⟩
  · unfold _load_plotting_prices
    simp only []
    rw [hts]
    simp only []
    rw [hscan]
  · intro c hc
    rw [hlook c hc, lookupA_map_self _ _ c hc]
    rfl

/-- The loaders' accumulator fold keeps exactly the `> 0` values, in
order. -/
theorem serStep_foldl (vs : List ℚ) :
    ∀ acc, vs.foldl serStep acc = acc ++ vs.filter (fun q => 0 < q) := by
  induction vs with
  | nil => simp
  | cons v vs ih =>
    intro acc
    simp only [List.foldl_cons, List.filter_cons]
    by_cases hv : 0 < v
    · rw [ih]
      simp [serStep, hv]
    · rw [ih]
      simp [serStep, hv]

/-- The statistics fold skips exactly the zero values. -/
theorem statStep_zero_filter (vs : List ℚ) :
    ∀ a, vs.foldl statStep a = (vs.filter (fun q => q ≠ 0)).foldl statStep a := by
  induction vs with
  | nil => simp
  | cons v vs ih =>
    intro a
    simp only [List.foldl_cons, List.filter_cons]
    by_cases hv : v = 0
    · rw [show statStep a v = a from by simp [statStep, hv], ih]
      simp [hv]
    · simp only [hv, decide_not, decide_False]
      rw [ih]
      simp [hv]

/-- The statistics fold counts and sums exactly the non-zero values. -/
theorem statStep_count_sum (vs : List ℚ) :
    ∀ a, (vs.foldl statStep a).count =
        a.count + (vs.filter (fun q => q ≠ 0)).length ∧
      (vs.foldl statStep a).sum = a.sum + (vs.filter (fun q => q ≠ 0)).sum := by
  induction vs with
  | nil => simp
  | cons v vs ih =>
    intro a
    simp only [List.foldl_cons, List.filter_cons]
    by_cases hv : v = 0
    · rw [show statStep a v = a from by simp [statStep, hv]]
      simpa [hv] using ih a
    · have hstep : (statStep a v).count = a.count + 1 ∧
          (statStep a v).sum = a.sum + v := by
        simp [statStep, hv]
      obtain ⟨hc, hs⟩ := ih (statStep a v)
      constructor
      · rw [hc, hstep.1]
        simp [hv]
        ring
      · rw [hs, hstep.2]
        simp [hv]
        ring

/-- One statistics step never increases the running minimum. -/
theorem statStep_smin_le (a : StatAcc) (u : ℚ) : (statStep a u).smin ≤ a.smin := by
  unfold statStep
  split
  · exact le_refl _
  · simp only []
    split
    · exact le_of_lt (by assumption)
    · exact le_refl _

/-- The statistics fold never increases the running minimum. -/
theorem foldl_statStep_smin_le (vs : List ℚ) :
    ∀ a, (vs.foldl statStep a).smin ≤ a.smin := by
  induction vs with
  | nil => exact fun a => le_refl _
  | cons v vs ih =>
    intro a
    exact le_trans (ih (statStep a v)) (statStep_smin_le a v)

/-- After scanning, the running minimum is at most any non-zero value of
the list — negative values included. -/
theorem foldl_statStep_smin_le_mem (vs : List ℚ) (v : ℚ) (hv : v ∈ vs)
    (hv0 : v ≠ 0) : ∀ a, (vs.foldl statStep a).smin ≤ v := by
  induction vs with
  | nil => cases hv
  | cons u vs ih =>
    intro a
    rcases List.mem_cons.mp hv with he | hm
    · subst he
      refine le_trans (foldl_statStep_smin_le vs (statStep a v)) ?_
      unfold statStep
      rw [if_neg hv0]
      simp only []
      split
      · exact le_refl _
      · exact le_of_not_lt (by assumption)
    · exact ih hm (statStep a u)

/-- C7: `load_cryptocur_statistics` seeds each asset's accumulator with min
100000000 and max 0 (and zero sum/count); the scan ignores zero-valued
samples entirely; an asset with no non-zero sample reports min 0, mean 0
and max 0; each asset's reported statistics are the finalized fold of its
column values; and on the two-row example ledger it reports
{min 47891, max 47892, mean 95783/2} for bitcoin and
{min 3542, max 3542, mean 3542} for ethereum. -/
theorem c7_statistics :
    (statAccInit.smin = 100000000 ∧ statAccInit.smax = 0 ∧
      statAccInit.sum = 0 ∧ statAccInit.count = 0) ∧
    (∀ (a : StatAcc) (vs : List ℚ),
      vs.foldl statStep a = (vs.filter (fun q => q ≠ 0)).foldl statStep a) ∧
    (∀ vs : List ℚ, vs.filter (fun q => q ≠ 0) = [] →
      statFinalize (vs.foldl statStep statAccInit) = ⟨0, 0, 0⟩) ∧
    (∀ (ids? : Option (List String)) (st : AppState) (colv : String → List ℚ),
      (effectiveIds ids? st).Nodup →
      (∀ c ∈ effectiveIds ids? st,
        columnFloats st.prices.rows c = .ok (colv c)) →
      ∃ out, load_cryptocur_statistics ids? st = .ok out ∧
        ∀ c ∈ effectiveIds ids? st, lookupA out c =
          some (statFinalize ((colv c).foldl statStep statAccInit))) ∧
    (∃ out, load_cryptocur_statistics none exampleState = .ok out ∧
      lookupA out "bitcoin" = some ⟨47891, 47892, 95783 / 2⟩ ∧
      lookupA out "ethereum" = some ⟨3542, 3542, 3542⟩) := by
  refine ⟨⟨rfl, rfl, rfl, rfl⟩, fun a vs => statStep_zero_filter vs a,
    ?_, ?_, ?_⟩
  · intro vs h
    rw [statStep_zero_filter vs statAccInit, h]
    rfl
  · intro ids? st colv hnd hcol
    exact load_statistics_lookup ids? st colv hnd hcol
  · have hcol7 : ∀ c ∈ effectiveIds none exampleState,
        columnFloats exampleState.prices.rows c =
          .ok (if c = "bitcoin" then [47891, 47892] else [0, 3542]) := by
      intro c hc
      have hc' : c ∈ ["bitcoin", "ethereum"] := hc
      rcases List.mem_cons.mp hc' with rfl | hc'
      · rfl
      · rcases List.mem_cons.mp hc' with rfl | hc'
        · rfl
        · cases hc'
    obtain ⟨out, hout, hlook⟩ := load_statistics_lookup none exampleState
      (fun c => if c = "bitcoin" then [47891, 47892] else [0, 3542])
      (by decide) hcol7
    refine ⟨out, hout, ?_, ?_⟩
    · rw [hlook "bitcoin" (by decide)]
      norm_num [statStep, statFinalize, statAccInit, List.foldl]
    · rw [hlook "ethereum" (by decide)]
      norm_num [statStep, statFinalize, statAccInit, List.foldl]

/-- Witness for C7: the all-zero conjunct at a concrete list and the
concrete example evaluation. -/
theorem c7_witness :
    statFinalize (([(0 : ℚ), 0]).foldl statStep statAccInit) = ⟨0, 0, 0⟩ ∧
    ∃ out, load_cryptocur_statistics none exampleState = .ok out ∧
      lookupA out "bitcoin" = some ⟨47891, 47892, 95783 / 2⟩ := by
  have h := c7_statistics
  refine ⟨h.2.2.1 [0, 0] (by norm_num), ?_⟩
  obtain ⟨out, hout, hb, he⟩ := h.2.2.2.2
  exact ⟨out, hout, hb⟩

/-- The example negative-value ledger for C10: one `> 0` price, one
negative price, one zero price. -/
def c10State : AppState :=
  { ids := ["bitcoin"],
    bundles := [],
    prices := ⟨["timestamp", "bitcoin"],
      [[("timestamp", .str "t1"), ("bitcoin", .num 5)],
       [("timestamp", .str "t2"), ("bitcoin", .num (-3))],
       [("timestamp", .str "t3"), ("bitcoin", .num 0)]]⟩,
    bundle_prices := ⟨["timestamp"], []⟩ }

/-- C10: the zero-exclusion rule differs between the loaders.
`load_cryptocur_prices` and `_load_plotting_prices` keep a stored value in
an asset's series exactly when it is strictly greater than 0 — so negative
values are excluded like zeros — whereas the statistics scan skips only
values exactly equal to 0.  Hence a negative stored value is absent from
every loaded price series but is counted in that asset's min, mean (sum
and sample count) statistics. -/
theorem c10_zero_exclusion_divergence :
    (∀ (acc vs : List ℚ),
      vs.foldl serStep acc = acc ++ vs.filter (fun q => 0 < q)) ∧
    (∀ (ids? : Option (List String)) (st : AppState)
      (colv : String → List ℚ) (ts : List Val),
      (effectiveIds ids? st).Nodup →
      timestampsOf st.prices.rows = .ok ts →
      (∀ c ∈ effectiveIds ids? st,
        columnFloats st.prices.rows c = .ok (colv c)) →
      ∃ accs, load_cryptocur_prices ids? st = .ok (ts, accs) ∧
        ∀ c ∈ effectiveIds ids? st, lookupA accs c =
          some ((colv c).filter (fun q => 0 < q))) ∧
    (∀ (f : CsvFile) (columns : List String) (ratio : ℕ)
      (colv : String → List ℚ) (ts : List Val),
      columns.Nodup →
      timestampsOf (sampledRows f.rows ratio) = .ok ts →
      (∀ c ∈ columns,
        columnFloats (sampledRows f.rows ratio) c = .ok (colv c)) →
      ∃ accs, _load_plotting_prices f columns ratio = .ok (ts, accs) ∧
        ∀ c ∈ columns, lookupA accs c =
          some ((colv c).filter (fun q => 0 < q))) ∧
    (∀ (vs : List ℚ) (v : ℚ), v ∈ vs → v < 0 →
      v ∉ vs.filter (fun q => 0 < q) ∧
      v ∈ vs.filter (fun q => q ≠ 0) ∧
      (vs.foldl statStep statAccInit).smin ≤ v ∧
      (vs.foldl statStep statAccInit).count =
        (vs.filter (fun q => q ≠ 0)).length ∧
      (vs.foldl statStep statAccInit).sum =
        (vs.filter (fun q => q ≠ 0)).sum ∧
      0 < (vs.foldl statStep statAccInit).count) := by
  refine ⟨fun acc vs => serStep_foldl vs acc, ?_, ?_, ?_⟩
  · intro ids? st colv ts hnd hts hcol
    obtain ⟨accs, hload, hlook⟩ := load_prices_lookup ids? st colv ts hnd hts hcol
    refine ⟨accs, hload, fun c hc => ?_⟩
    rw [hlook c hc, serStep_foldl]
    simp
  · intro f columns ratio colv ts hnd hts hcol
    obtain ⟨accs, hload, hlook⟩ :=
      plot_prices_lookup f columns ratio colv ts hnd hts hcol
    refine ⟨accs, hload, fun c hc => ?_⟩
    rw [hlook c hc, serStep_foldl]
    simp
  · intro vs v hv hneg
    have hne : v ≠ 0 := ne_of_lt hneg
    have hmem : v ∈ vs.filter (fun q => q ≠ 0) :=
      List.mem_filter.mpr ⟨hv, by simpa using hne⟩
    obtain ⟨hcnt, hsum⟩ := statStep_count_sum vs statAccInit
    refine ⟨?_, hmem, foldl_statStep_smin_le_mem vs v hv hne statAccInit,
      ?_, ?_, ?_⟩
    · intro hcon
      have := (List.mem_filter.mp hcon).2
      simp at this
      exact absurd hneg (not_lt_of_lt this)
    · simpa [statAccInit] using hcnt
    · simpa [statAccInit] using hsum
    · rw [hcnt]
      have : 0 < (vs.filter (fun q => q ≠ 0)).length :=
        List.length_pos.mpr (List.ne_nil_of_mem hmem)
      simpa [statAccInit] using this

/-- Witness for C10: on the ledger with prices 5, -3, 0 the loaded series
for "bitcoin" is [5] (the negative value is excluded), yet the statistics
scan counts the -3: it lands in the non-zero sample list, drags the min to
at most -3, and contributes to the sample count. -/
theorem c10_witness :
    (∃ accs, load_cryptocur_prices none c10State =
        .ok ([Val.str "t1", Val.str "t2", Val.str "t3"], accs) ∧
      lookupA accs "bitcoin" = some [5]) ∧
    (-3 : ℚ) ∉ [(5 : ℚ), -3, 0].filter (fun q => 0 < q) ∧
    (-3 : ℚ) ∈ [(5 : ℚ), -3, 0].filter (fun q => q ≠ 0) ∧
    ([(5 : ℚ), -3, 0].foldl statStep statAccInit).smin ≤ -3 ∧
    0 < ([(5 : ℚ), -3, 0].foldl statStep statAccInit).count := by
  have h := c10_zero_exclusion_divergence
  have hcol10 : ∀ c ∈ effectiveIds none c10State,
      columnFloats c10State.prices.rows c = .ok [5, -3, 0] := by
    intro c hc
    have hc' : c ∈ ["bitcoin"] := hc
    rcases List.mem_cons.mp hc' with rfl | hc'
    · rfl
    · cases hc'
  obtain ⟨accs, hload, hlook⟩ := h.2.1 none c10State (fun _ => [5, -3, 0])
    [Val.str "t1", Val.str "t2", Val.str "t3"] (by decide) (by rfl) hcol10
  have h4 := h.2.2.2 [5, -3, 0] (-3) (by norm_num) (by norm_num)
  refine ⟨⟨accs, hload, ?_⟩, h4.1, h4.2.1, h4.2.2.1, h4.2.2.2.2.2⟩
  rw [hlook "bitcoin" (by decide)]
  norm_num

/-- The per-cell transform performed by `_convert_price_file_values` on a
numeric row: timestamps are kept, every other cell is multiplied by the
factor (string cells are unreachable on a numeric row and kept as-is so
that the function is total). -/
def convertCell (factor : ℚ) (kv : String × Val) : String × Val :=
  if kv.1 = "timestamp" then kv
  else
    match kv.2 with
    | .num q => (kv.1, .num (q * factor))
    | .str s => (kv.1, .str s)

/-- `convertCell` never changes the column name. -/
theorem convertCell_fst (factor : ℚ) (kv : String × Val) :
    (convertCell factor kv).1 = kv.1 := by
  unfold convertCell
  split
  · rfl
  · cases kv.2 <;> rfl

/-- Converting by 2 and then by 1/2 restores every cell. -/
theorem convertCell_half_two (kv : String × Val) :
    convertCell (1 / 2) (convertCell 2 kv) = kv := by
  obtain ⟨k, v⟩ := kv
  by_cases ht : k = "timestamp"
  · simp [convertCell, ht]
  · cases v with
    | num q =>
      simp [convertCell, ht]
    | str s => simp [convertCell, ht]

/-- A row is numeric when every non-timestamp cell is a number. -/
def NumericRow (r : Row) : Prop :=
  ∀ kv ∈ r, kv.1 ≠ "timestamp" → ∃ q, kv.2 = Val.num q

instance (v : Val) : Decidable (∃ q, v = Val.num q) :=
  match v with
  | .num q => isTrue ⟨q, rfl⟩
  | .str s => isFalse (fun h => by
      obtain ⟨q, hq⟩ := h
      cases hq)

instance (r : Row) : Decidable (NumericRow r) := by
  unfold NumericRow
  infer_instance

/-- On a numeric row the conversion comprehension succeeds and applies
`convertCell` to every cell. -/
theorem convert_row_eq (factor : ℚ) (r : Row) (hnum : NumericRow r) :
    mapME (fun (kv : String × Val) =>
      if kv.1 = "timestamp" then .ok kv
      else
        match pyFloat kv.2 with
        | .error e => .error e
        | .ok q => .ok (kv.1, Val.num (q * factor))) r
    = .ok (r.map (convertCell factor)) := by
  induction r with
  | nil => rfl
  | cons kv r ih =>
    have htl : NumericRow r := fun kv' h' => hnum kv' (List.mem_cons_of_mem kv h')
    unfold mapME
    by_cases ht : kv.1 = "timestamp"
    · rw [if_pos ht, ih htl]
      simp only [List.map_cons]
      rw [show convertCell factor kv = kv from by unfold convertCell; rw [if_pos ht]]
    · rw [if_neg ht]
      obtain ⟨q, hq⟩ := hnum kv (List.mem_cons_self kv r) ht
      rw [hq, show pyFloat (Val.num q) = Except.ok q from rfl]
      simp only []
      rw [ih htl]
      simp only [List.map_cons]
      rw [show convertCell factor kv = (kv.1, Val.num (q * factor)) from by
        unfold convertCell
        rw [if_neg ht, hq]]

/-- The header projection of a row whose keys are exactly a duplicate-free
header is the row itself. -/
theorem proj_of_keys (d : Row) :
    ∀ h : List String, rowKeys d = h → h.Nodup →
    h.map (fun k => (k, (lookupA d k).getD (Val.str ""))) = d := by
  induction d with
  | nil =>
    intro h hk _
    rw [← hk]
    rfl
  | cons kv d ih =>
    intro h hk hnd
    subst hk
    simp only [rowKeys, List.map_cons] at hnd ⊢
    have hhead : lookupA (kv :: d) kv.1 = some kv.2 := by
      unfold lookupA
      rw [if_pos rfl]
    rw [hhead]
    have hnotin : kv.1 ∉ d.map Prod.fst := (List.nodup_cons.mp hnd).1
    have htail : ∀ k ∈ d.map Prod.fst,
        (fun k => (k, (lookupA (kv :: d) k).getD (Val.str ""))) k =
        (fun k => (k, (lookupA d k).getD (Val.str ""))) k := by
      intro k hkmem
      have hne : kv.1 ≠ k := fun he => hnotin (he ▸ hkmem)
      have hskip : lookupA (kv :: d) k = lookupA d k := by
        rw [show lookupA (kv :: d) k =
          if kv.1 = k then some kv.2 else lookupA d k from rfl, if_neg hne]
      simp only []
      rw [hskip]
    rw [List.map_congr_left htail]
    have hihd : rowKeys d = d.map Prod.fst := rfl
    rw [ih (d.map Prod.fst) hihd (List.nodup_cons.mp hnd).2]
    rfl

/-- `DictWriter.writerow` is the identity on a row whose keys are exactly a
duplicate-free header. -/
theorem writerowDict_id (h : List String) (d : Row) (hk : rowKeys d = h)
    (hnd : h.Nodup) : writerowDict h d = .ok d := by
  rw [writerowDict_ok h d (fun kv hkv => hk ▸ List.mem_map.mpr ⟨kv, hkv, rfl⟩)]
  rw [proj_of_keys d h hk hnd]

/-- Converting a well-formed numeric file against its own header succeeds
and maps `convertCell` over every row, keeping the header. -/
theorem convert_file_eq (f : CsvFile) (factor : ℚ) (hnd : f.header.Nodup)
    (hwf : RowsMatch f) (hnum : ∀ r ∈ f.rows, NumericRow r) :
    _convert_price_file_values f f.header factor =
      .ok ⟨f.header, f.rows.map (fun r => r.map (convertCell factor))⟩ := by
  have hmap : ∀ rows : List Row, (∀ r ∈ rows, r ∈ f.rows) →
      mapME (fun row =>
        match mapME (fun (kv : String × Val) =>
            if kv.1 = "timestamp" then .ok kv
            else
              match pyFloat kv.2 with
              | .error e => .error e
              | .ok q => .ok (kv.1, Val.num (q * factor))) row with
          | .error e => .error e
          | .ok row' => writerowDict f.header row') rows
        = .ok (rows.map (fun r => r.map (convertCell factor))) := by
    intro rows
    induction rows with
    | nil => exact fun _ => rfl
    | cons r rs ih =>
      intro hall
      have hr : r ∈ f.rows := hall r (List.mem_cons_self r rs)
      unfold mapME
      rw [convert_row_eq factor r (hnum r hr)]
      simp only []
      rw [writerowDict_id f.header (r.map (convertCell factor)) ?_ hnd]
      · simp only []
        rw [ih (fun r' h' => hall r' (List.mem_cons_of_mem r h'))]
        rfl
      · rw [show rowKeys (r.map (convertCell factor)) = rowKeys r from ?_, hwf r hr]
        unfold rowKeys
        rw [List.map_map]
        exact List.map_congr_left (fun kv _ => convertCell_fst factor kv)
  unfold _convert_price_file_values
  rw [hmap f.rows (fun r hr => hr)]

/-- Conversion keeps the key list of every row, hence well-formedness. -/
theorem rowsMatch_map_convert (f : CsvFile) (factor : ℚ) (hwf : RowsMatch f) :
    RowsMatch (⟨f.header, f.rows.map (fun r => r.map (convertCell factor))⟩ : CsvFile) := by
  intro r' hr'
  obtain ⟨r, hr, rfl⟩ := List.mem_map.mp hr'
  show rowKeys (r.map (convertCell factor)) = f.header
  rw [show rowKeys (r.map (convertCell factor)) = rowKeys r from ?_, hwf r hr]
  unfold rowKeys
  rw [List.map_map]
  exact List.map_congr_left (fun kv _ => convertCell_fst factor kv)

/-- Conversion keeps rows numeric. -/
theorem numeric_map_convert (rows : List Row) (factor : ℚ)
    (hnum : ∀ r ∈ rows, NumericRow r) :
    ∀ r' ∈ rows.map (fun r => r.map (convertCell factor)), NumericRow r' := by
  intro r' hr' kv' hkv' hts
  obtain ⟨r, hr, rfl⟩ := List.mem_map.mp hr'
  obtain ⟨kv, hkv, rfl⟩ := List.mem_map.mp hkv'
  have hts' : kv.1 ≠ "timestamp" := by rwa [convertCell_fst] at hts
  obtain ⟨q, hq⟩ := hnum r hr kv hkv hts'
  refine ⟨q * factor, ?_⟩
  unfold convertCell
  rw [if_neg hts', hq]

/-- `convert_prices` on a consistent state (ledger headers in sync with the
registries, duplicate-free, well-formed, numeric) succeeds and converts
every cell of both ledgers in place. -/
theorem convert_prices_eq (st : AppState) (factor : ℚ)
    (hp : st.prices.header = "timestamp" :: st.ids)
    (hb : st.bundle_prices.header = "timestamp" :: load_bundle_ids st)
    (hndp : st.prices.header.Nodup) (hndb : st.bundle_prices.header.Nodup)
    (hwfp : RowsMatch st.prices) (hwfb : RowsMatch st.bundle_prices)
    (hnump : ∀ r ∈ st.prices.rows, NumericRow r)
    (hnumb : ∀ r ∈ st.bundle_prices.rows, NumericRow r) :
    convert_prices factor st =
      { state :=
          { st with
            prices := ⟨st.prices.header,
              st.prices.rows.map (fun r => r.map (convertCell factor))⟩,
            bundle_prices := ⟨st.bundle_prices.header,
              st.bundle_prices.rows.map (fun r => r.map (convertCell factor))⟩ },
        error := none } := by
  unfold convert_prices
  rw [← hp, convert_file_eq st.prices factor hndp hwfp hnump]
  simp only []
  rw [show "timestamp" :: load_bundle_ids
      { st with prices := (⟨st.prices.header,
          st.prices.rows.map (fun r => r.map (convertCell factor))⟩ : CsvFile) } =
      st.bundle_prices.header from by rw [hb]; rfl]
  rw [show ({ st with prices := (⟨st.prices.header,
      st.prices.rows.map (fun r => r.map (convertCell factor))⟩ : CsvFile) } :
      AppState).bundle_prices = st.bundle_prices from rfl]
  rw [convert_file_eq st.bundle_prices factor hndb hwfb hnumb]

/-- C8: `convertAll(factor)` succeeds on a consistent state, leaves the
registries, both headers (and hence the column order) and every timestamp
cell unchanged, multiplies every non-timestamp cell of every row of both
ledgers by the factor (`convertCell`), and converting by 2 and then by 1/2
restores the state exactly (the model computes in ℚ, so the float
round-trip is exact here). -/
theorem c8_convert_all (st : AppState) (factor : ℚ)
    (hp : st.prices.header = "timestamp" :: st.ids)
    (hb : st.bundle_prices.header = "timestamp" :: load_bundle_ids st)
    (hndp : st.prices.header.Nodup) (hndb : st.bundle_prices.header.Nodup)
    (hwfp : RowsMatch st.prices) (hwfb : RowsMatch st.bundle_prices)
    (hnump : ∀ r ∈ st.prices.rows, NumericRow r)
    (hnumb : ∀ r ∈ st.bundle_prices.rows, NumericRow r) :
    (convert_prices factor st).error = none ∧
    (convert_prices factor st).state.ids = st.ids ∧
    (convert_prices factor st).state.bundles = st.bundles ∧
    (convert_prices factor st).state.prices.header = st.prices.header ∧
    (convert_prices factor st).state.bundle_prices.header =
      st.bundle_prices.header ∧
    (convert_prices factor st).state.prices.rows =
      st.prices.rows.map (fun r => r.map (convertCell factor)) ∧
    (convert_prices factor st).state.bundle_prices.rows =
      st.bundle_prices.rows.map (fun r => r.map (convertCell factor)) ∧
    (convert_prices (1 / 2) (convert_prices 2 st).state).state = st := by
  have hmain := convert_prices_eq st factor hp hb hndp hndb hwfp hwfb hnump hnumb
  have h2 := convert_prices_eq st 2 hp hb hndp hndb hwfp hwfb hnump hnumb
  refine ⟨by rw [hmain], by rw [hmain], by rw [hmain], by rw [hmain],
    by rw [hmain], by rw [hmain], by rw [hmain], ?_⟩
  rw [h2]
  simp only []
  have hhalf := convert_prices_eq
    { st with
      prices := ⟨st.prices.header,
        st.prices.rows.map (fun r => r.map (convertCell 2))⟩,
      bundle_prices := ⟨st.bundle_prices.header,
        st.bundle_prices.rows.map (fun r => r.map (convertCell 2))⟩ }
    (1 / 2) hp hb hndp hndb
    (rowsMatch_map_convert st.prices 2 hwfp)
    (rowsMatch_map_convert st.bundle_prices 2 hwfb)
    (numeric_map_convert st.prices.rows 2 hnump)
    (numeric_map_convert st.bundle_prices.rows 2 hnumb)
  rw [hhalf]
  simp only []
  have hcollapse : ∀ rows : List Row,
      (rows.map (fun r => r.map (convertCell 2))).map
        (fun r => r.map (convertCell (1 / 2))) = rows := by
    intro rows
    rw [List.map_map]
    have : ∀ r ∈ rows,
        ((fun r => List.map (convertCell (1 / 2)) r) ∘
          fun r => List.map (convertCell 2) r) r = id r := by
      intro r _
      simp only [Function.comp, List.map_map, id]
      have : ∀ kv ∈ r, (convertCell (1 / 2) ∘ convertCell 2) kv = id kv := by
        intro kv _
        simp only [Function.comp, id]
        exact convertCell_half_two kv
      rw [List.map_congr_left this, List.map_id]
    rw [List.map_congr_left this, List.map_id]
  rw [hcollapse st.prices.rows, hcollapse st.bundle_prices.rows]

/-- Witness for C8: on the example state, converting by 2 succeeds with
headers unchanged, and converting by 2 then by 1/2 restores the state. -/
theorem c8_witness :
    (convert_prices 2 exampleState).error = none ∧
    (convert_prices 2 exampleState).state.prices.header = examplePrices.header ∧
    (convert_prices (1 / 2) (convert_prices 2 exampleState).state).state
      = exampleState := by
  have h := c8_convert_all exampleState 2 (by decide) (by decide) (by decide)
    (by decide) (by decide) (by decide) (by decide) (by decide)
  exact ⟨h.1, h.2.2.2.1, h.2.2.2.2.2.2.2⟩

end PlotTool
